import Mathlib

/-!
Verification development for the mtpy mesh-building core
(`mtpy/utils/mesh_tools.py`, `mtpy/modeling/modem/model.py`).

The Python code computes with IEEE doubles; the embedding models its
arithmetic exactly over a linear ordered field (`ℚ` for the executable
fragments, `ℝ` where the source takes logarithms, real powers or
exponentials).  NumPy and Python both round half-to-even, which is
modelled exactly by `roundHalfEven` below.  Fallible NumPy operations
(reductions over empty arrays, out-of-range indexing) are modelled with
`Except`/`Option` results.
-/

namespace Mtpy

variable {α : Type} [LinearOrderedField α] [FloorRing α]

/-- Round half to even (banker's rounding) to an integer: the rounding mode
used by `np.round`, `np.around` and Python's string formatting. -/
def roundHalfEven (x : α) : ℤ :=
  if Int.fract x < 1 / 2 then ⌊x⌋
  else if 1 / 2 < Int.fract x then ⌊x⌋ + 1
  else if ⌊x⌋ % 2 = 0 then ⌊x⌋ else ⌊x⌋ + 1

/-- `np.round(x, d)` / `np.around(x, d)`: round to `d` decimal places
(`d` may be negative, e.g. `d = -2` rounds to the nearest hundred). -/
def npRound (x : α) (d : ℤ) : α :=
  (roundHalfEven (x * (10 : α) ^ d) : α) / (10 : α) ^ d

/-- Python's modulo operator `%` on field values (sign follows the divisor). -/
def pythonMod (a b : α) : α := a - b * ⌊a / b⌋

/-- `np.arange(start, stop, step)` for a positive step: the number of samples
is `⌈(stop - start) / step⌉` (clamped at zero). -/
def npArange (start stop step : α) : List α :=
  (List.range (⌈(stop - start) / step⌉).toNat).map (fun (i : ℕ) => start + step * (i : α))

/-- Insert into a sorted list, keeping ascending order. -/
def insertAsc (a : α) : List α → List α
  | [] => [a]
  | b :: l => if a ≤ b then a :: b :: l else b :: insertAsc a l

/-- Python's `sorted` builtin (ascending insertion sort). -/
def sortAsc (l : List α) : List α := l.foldr insertAsc []

/-- `np.min` / `arr.min()`: raises `ValueError` on an empty array. -/
def npMin (l : List α) : Except String α :=
  match l.min? with
  | some m => Except.ok m
  | none => Except.error ("ValueError: zero-size array to reduction operation minimum")

/-- `np.max` / `arr.max()`: raises `ValueError` on an empty array. -/
def npMax (l : List α) : Except String α :=
  match l.max? with
  | some m => Except.ok m
  | none => Except.error ("ValueError: zero-size array to reduction operation maximum")

/-- `arr[-1]`: raises `IndexError` on an empty array. -/
def npLast (l : List α) : Except String α :=
  match l.getLast? with
  | some m => Except.ok m
  | none => Except.error ("IndexError: index -1 is out of bounds")

/-! ## `mtpy/utils/mesh_tools.py` -/

/-- `mesh_tools.get_nearest_index(array, value)`:
`abs_diff = np.abs(array - value); return np.where(abs_diff == np.amin(abs_diff))[0][0]`,
i.e. the first index at which the absolute difference attains its minimum.
`none` models the `IndexError` raised on an empty array. -/
def get_nearest_index (array : List α) (value : α) : Option ℕ :=
  let abs_diff := array.map (fun a => |a - value|)
  abs_diff.min?.map (fun m => abs_diff.findIdx (fun x => decide (x = m)))

/-- `mesh_tools.get_padding_from_stretch(cell_width, pad_stretch, num_cells)`:
`nodes = np.around(cell_width * pad_stretch**np.arange(num_cells), -2)`,
returning the cumulative sums `[nodes[:i].sum() for i in range(1, len+1)]`. -/
def get_padding_from_stretch (cell_width pad_stretch : α) (num_cells : ℕ) : List α :=
  let nodes := (List.range num_cells).map (fun i => npRound (cell_width * pad_stretch ^ i) (-2))
  (List.range num_cells).map (fun i => (nodes.take (i + 1)).sum)

/-- `np.logspace(u, v, num=n)`: `n` samples `10 ** (u + i*(v-u)/(n-1))`.
For `n = 1` NumPy returns `[10 ** u]`, matching `(v-u)*0/0 = 0` here. -/
noncomputable def logspace10 (u v : ℝ) (n : ℕ) : List ℝ :=
  (List.range n).map (fun (i : ℕ) => (10 : ℝ) ^ (u + (i : ℝ) * (v - u) / ((n : ℝ) - 1)))

/-- Loop body of `mesh_tools.make_log_increasing_array`: keep multiplying the
trial maximum cell thickness `m` by `increment_factor` while the logspace sum
exceeds `target_depth`; the source breaks after the iteration counter passes
`1e6`.  Returns the final trial maximum together with a flag that is `true`
exactly when the loop exited because the sum condition was satisfied. -/
noncomputable def mliaAux (z1_layer target_depth increment_factor : ℝ) (n_layers : ℕ) :
    ℕ → ℝ → ℝ × Bool
  | 0, m =>
      if (logspace10 (Real.logb 10 z1_layer) (Real.logb 10 m) n_layers).sum ≤ target_depth then
        (m, true)
      else (increment_factor * m, false)
  | fuel + 1, m =>
      if (logspace10 (Real.logb 10 z1_layer) (Real.logb 10 m) n_layers).sum ≤ target_depth then
        (m, true)
      else mliaAux z1_layer target_depth increment_factor n_layers fuel (increment_factor * m)

/-- `mesh_tools.make_log_increasing_array(z1_layer, target_depth, n_layers,
increment_factor)`: start from a trial maximum thickness equal to
`target_depth` and shrink it via `mliaAux`; the result is the logspace array
from `log10 z1_layer` to `log10` of the final trial maximum. -/
noncomputable def make_log_increasing_array (z1_layer target_depth : ℝ) (n_layers : ℕ)
    (increment_factor : ℝ) : List ℝ :=
  logspace10 (Real.logb 10 z1_layer)
    (Real.logb 10 ((mliaAux z1_layer target_depth increment_factor n_layers 1000000
      target_depth).1)) n_layers

/-- The scaling factor of `mesh_tools.get_padding_cells`:
`((max_distance)/(cell_width*stretch))**(1./(num_cells-1))`. -/
noncomputable def paddingScaling (cell_width max_distance : ℝ) (num_cells : ℕ) (stretch : ℝ) : ℝ :=
  (max_distance / (cell_width * stretch)) ^ ((1 : ℝ) / ((num_cells : ℝ) - 1))

/-- `mesh_tools.get_padding_cells(cell_width, max_distance, num_cells, stretch)`:
entry `ii` is the maximum of the exponential candidate
`np.round((cell_width*stretch)*scaling**ii, -2)` and the geometric candidate
`np.round((cell_width*stretch)*((1-stretch**(ii+1))/(1-stretch)), -2)`. -/
noncomputable def get_padding_cells (cell_width max_distance : ℝ) (num_cells : ℕ)
    (stretch : ℝ) : List ℝ :=
  (List.range num_cells).map (fun ii =>
    max (npRound ((cell_width * stretch) * (paddingScaling cell_width max_distance num_cells stretch) ^ ii) (-2))
      (npRound ((cell_width * stretch) * ((1 - stretch ^ (ii + 1)) / (1 - stretch))) (-2)))

/-- `mesh_tools.get_padding_cells2(cell_width, core_max, max_distance, num_cells)`:
`max_distance = max(cell_width*num_cells, max_distance)`, then
`np.around(np.logspace(np.log10(core_max), np.log10(max_distance), num_cells), -2) - core_max`. -/
noncomputable def get_padding_cells2 (cell_width core_max max_distance : ℝ)
    (num_cells : ℕ) : List ℝ :=
  let md := max (cell_width * (num_cells : ℝ)) max_distance
  (logspace10 (Real.logb 10 core_max) (Real.logb 10 md) num_cells).map
    (fun c => npRound c (-2) - core_max)

/-- `arr[-2]`: raises `IndexError` when the array has fewer than two entries. -/
def npSecondLast (l : List α) : Except String α :=
  match l.reverse with
  | _ :: b :: _ => Except.ok b
  | _ => Except.error ("IndexError: index -2 is out of bounds")

/-! ## `mtpy/modeling/modem/model.py` : node/grid symbiosis

`Model.nodes_east` / `nodes_north` / `nodes_z` are properties: the getter
recomputes node widths from the grid-line array, the setter regenerates the
grid-line array from the node widths. -/

/-- Getter of `Model.nodes_east` / `nodes_north` / `nodes_z`:
`[abs(grid[ii+1] - grid[ii]) for ii in range(grid.size - 1)]`. -/
def nodes_from_grid (grid : List α) : List α :=
  (List.range (grid.length - 1)).map (fun ii => |grid.getD (ii + 1) 0 - grid.getD ii 0|)

/-- Setter of `Model.nodes_east` / `nodes_north`:
`[-nodes.sum()/2 + nodes[0:ii].sum() for ii in range(nodes.size)] + [nodes.sum()/2]`. -/
def grid_from_nodes_h (nodes : List α) : List α :=
  (List.range nodes.length).map (fun ii => -nodes.sum / 2 + (nodes.take ii).sum) ++
    [nodes.sum / 2]

/-- Setter of `Model.nodes_z`:
`[nodes[0:ii].sum() for ii in range(nodes.size)] + [nodes.sum()]`. -/
def grid_from_nodes_z (nodes : List α) : List α :=
  (List.range nodes.length).map (fun ii => (nodes.take ii).sum) ++ [nodes.sum]

/-! ## `Model.make_mesh` -/

/-- The three recognized values of `Model.pad_method`. -/
inductive PadMethod
  | extent1
  | extent2
  | stretch

/-- The station data consumed by `make_mesh`: grid-relative station
coordinates `rel_east` and `rel_north`. -/
structure StationLocations (β : Type) where
  rel_east : List β
  rel_north : List β

/-- The `Model` attributes read by `make_mesh`. -/
structure MeshConfig where
  cell_size_east : ℝ
  cell_size_north : ℝ
  pad_east : ℕ
  pad_north : ℕ
  pad_z : ℕ
  pad_num : ℕ
  ew_ext : ℝ
  ns_ext : ℝ
  pad_stretch_h : ℝ
  pad_stretch_v : ℝ
  pad_method : PadMethod
  z1_layer : ℝ
  z_target_depth : ℝ
  z_bottom : ℝ
  n_layers : ℕ

/-- The grid produced by `make_mesh`. -/
structure MeshResult where
  grid_east : List ℝ
  grid_north : List ℝ
  grid_z : List ℝ
  nodes_z : List ℝ
  grid_center : ℝ × ℝ × ℝ

/-- One pass of the station/node collision-avoidance loop in `make_mesh`
(lines 352-361): find the first grid line strictly within `0.02 * cell_size`
of the station; if the station is strictly east of it move the line west by
`0.02 * cell_size`, if strictly west move it east, otherwise (exact
coincidence, or no line found: `IndexError` caught) leave the grid alone. -/
def nudgeStation (cs : α) (grid : List α) (s : α) : List α :=
  match grid.findIdx? (fun g => decide (|s - g| < (1 / 50) * cs)) with
  | none => grid
  | some node_index =>
      let g := grid.getD node_index 0
      if 0 < s - g then grid.set node_index (g - (1 / 50) * cs)
      else if s - g < 0 then grid.set node_index (g + (1 / 50) * cs)
      else grid

/-- The full collision-avoidance loop of `make_mesh` for one axis:
`for s in sorted(rel): ...` folding `nudgeStation` over the sorted stations. -/
def nudgeGrid (cs : α) (grid : List α) (rel : List α) : List α :=
  (sortAsc rel).foldl (nudgeStation cs) grid

/-- The horizontal-axis portion of `make_mesh` (lines 284-373) for one axis:
extremes of the station coordinates padded by `pad_num * 1.5 * cell_size` and
rounded to hundreds, the inner regular grid via `np.arange`, the one-sided
padding (supplied by `padding_of`, which receives the rounded upper extreme
and the inner grid), mirroring of the padding to both sides, and the
collision-avoidance pass. -/
def horizAxisPad (cs : α) (pad_num : ℕ)
    (padding_of : α → List α → Except String (List α)) (rel : List α) :
    Except String (List α) := do
  let mn ← npMin rel
  let mx ← npMax rel
  let pw := (pad_num : α) * (3 / 2) * cs
  let lo := npRound (mn - pw) (-2)
  let hi := npRound (mx + pw) (-2)
  let add := pythonMod (hi - lo) cs / 2
  let inner := npArange (lo + add - cs) (hi - add + 2 * cs) cs
  let padding ← padding_of hi inner
  let imn ← npMin inner
  let imx ← npMax inner
  let grid := (padding.reverse.map (fun p => -1 * p + imn)) ++ inner ++
    (padding.map (fun p => p + imx))
  Except.ok (nudgeGrid cs grid rel)

/-- The `pad_method` dispatch of `make_mesh` (lines 316-341) for one axis:
`extent1` uses `get_padding_cells(cell_size, ext/2 - hi, pad_n, stretch)`;
`extent2` uses `get_padding_cells2(cell_size, inner[-1], ext/2, pad_n)`;
`stretch` uses `get_padding_from_stretch(cell_size, stretch, pad_n)`. -/
noncomputable def paddingOf (method : PadMethod) (cs : ℝ) (ext stretch : ℝ) (pad_n : ℕ)
    (hi : ℝ) (inner : List ℝ) : Except String (List ℝ) :=
  match method with
  | PadMethod.extent1 => Except.ok (get_padding_cells cs (ext / 2 - hi) pad_n stretch)
  | PadMethod.extent2 => do
      let l ← npLast inner
      Except.ok (get_padding_cells2 cs l (ext / 2) pad_n)
  | PadMethod.stretch => Except.ok (get_padding_from_stretch cs stretch pad_n)

/-- `Model.make_mesh` (lines 267-405): unset stations raise
`AttributeError` at `self.station_locations.rel_east`, an empty station set
raises `ValueError` inside `.min()`; otherwise build both horizontal grids,
the depth grid (log-spaced core layers rounded to two significant figures
plus differenced `get_padding_cells` padding) and the grid center. -/
noncomputable def makeMesh (station_locations : Option (StationLocations ℝ))
    (cfg : MeshConfig) : Except String MeshResult := do
  let sl ← match station_locations with
    | some s => Except.ok s
    | none => Except.error ("AttributeError: NoneType object has no attribute rel_east")
  let grid_east ← horizAxisPad cfg.cell_size_east cfg.pad_num
    (paddingOf cfg.pad_method cfg.cell_size_east cfg.ew_ext cfg.pad_stretch_h cfg.pad_east)
    sl.rel_east
  let grid_north ← horizAxisPad cfg.cell_size_north cfg.pad_num
    (paddingOf cfg.pad_method cfg.cell_size_north cfg.ns_ext cfg.pad_stretch_h cfg.pad_north)
    sl.rel_north
  let corr ← npSecondLast (logspace10 (Real.logb 10 cfg.z1_layer)
    (Real.logb 10 cfg.z_target_depth) cfg.n_layers)
  let log_z := logspace10 (Real.logb 10 cfg.z1_layer)
    (Real.logb 10 (cfg.z_target_depth - corr)) (cfg.n_layers - cfg.pad_z)
  let z_nodes := log_z.map (fun zz => npRound zz (1 - ⌊Real.logb 10 zz⌋))
  let zlast ← npLast z_nodes
  let z_padding0 := get_padding_cells zlast (cfg.z_bottom - z_nodes.sum) cfg.pad_z
    cfg.pad_stretch_v
  let z_padding := (List.range (z_padding0.length - 1)).map
    (fun ii => z_padding0.getD (ii + 1) 0 - z_padding0.getD ii 0)
  let nodes_z := z_nodes ++ z_padding
  let grid_z := grid_from_nodes_z nodes_z
  let ge_min ← npMin grid_east
  let gn_min ← npMin grid_north
  let center_east := npRound (ge_min - grid_east.sum / (grid_east.length : ℝ)) (-1)
  let center_north := npRound (gn_min - grid_north.sum / (grid_north.length : ℝ)) (-1)
  Except.ok { grid_east := grid_east
              grid_north := grid_north
              grid_z := grid_z
              nodes_z := nodes_z
              grid_center := (center_north, center_east, 0) }

/-! ## `Model.interpolate_elevation` : border extension (lines 1359-1367)

The scattered-point interpolation itself is `scipy.interpolate.griddata`, an
external collaborator; its output is the input matrix `m` here (`rows` = size
of `model_east`, `cols` = size of `model_north`).  The four slice assignments
repeat the nearest interior row/column into the outer `pad` rows/columns,
reading the current (partially updated) array exactly as NumPy does, and the
result is transposed (`interp_elev.T`). -/

/-- Border extension and transposition of `Model.interpolate_elevation`. -/
def interpolate_elevation_border {β : Type} (pad rows cols : ℕ) (m : ℕ → ℕ → β) :
    ℕ → ℕ → β :=
  let m1 := fun i j => if i < pad ∧ pad ≤ j ∧ j < cols - pad then m pad j else m i j
  let m2 := fun i j =>
    if rows - pad ≤ i ∧ i < rows ∧ pad ≤ j ∧ j < cols - pad then m1 (rows - pad - 1) j
    else m1 i j
  let m3 := fun i j => if j < pad then m2 i pad else m2 i j
  let m4 := fun i j => if cols - pad ≤ j ∧ j < cols then m3 i (cols - pad - 1) else m3 i j
  fun i j => m4 j i

/-- Clamping of an index into the interior band `[pad, n - pad - 1]`: the
position of the nearest interior row/column. -/
def clampIdx (pad n i : ℕ) : ℕ :=
  if i < pad then pad else if n - pad ≤ i then n - pad - 1 else i

/-! ## `Model.assign_resistivity_from_surfacedata` (lines 1564-1617) -/

/-- `Model.assign_resistivity_from_surfacedata(surfacename, resistivity_value,
where)`: cell-centre depths are midpoints of consecutive `grid_z` lines; the
named surface is negated to depth-positive-down; the upper bound `top` is the
minimum of the surface minus one when topography is itself being assigned,
minus the topography surface when another surface is assigned, and the model
top `grid_z[0]` when no topography exists.  Cells with centre depth in
`(top, surface]` (for `where='above'`) or strictly below the surface
(otherwise) receive `resistivity_value`; when assigning topography, cells
between the surface and sea level additionally receive the fixed seawater
resistivity `0.3`.  A missing surface raises `KeyError`, an empty surface
array makes `np.amin` raise `ValueError`. -/
def assign_resistivity_from_surfacedata (grid_z : List α)
    (surface_dict : String → Option (ℕ → ℕ → α)) (n_north n_east : ℕ)
    (res_model : ℕ → ℕ → ℕ → α) (surfacename : String) (resistivity_value : α)
    (wh : String) : Except String (ℕ → ℕ → ℕ → α) := do
  let n_z := grid_z.length - 1
  let gcz := fun k => (grid_z.getD k 0 + grid_z.getD (k + 1) 0) / 2
  let surf ← match surface_dict surfacename with
    | some s => Except.ok s
    | none => Except.error ("KeyError: surface name not in surface_dict")
  let surfacedata := fun j i => -(surf j i)
  let top ← match surface_dict ("topography") with
    | some t =>
        if surfacename = ("topography") then do
          let amin ← npMin (((List.range n_north).map
            (fun j => (List.range n_east).map (fun i => surfacedata j i))).flatten)
          Except.ok (fun (_ _ : ℕ) => amin - 1)
        else Except.ok (fun j i => -(t j i))
    | none => Except.ok (fun (_ _ : ℕ) => grid_z.getD 0 0)
  Except.ok (fun j i k =>
    if j < n_north ∧ i < n_east ∧ k < n_z then
      let base :=
        if (wh = ("above") ∧ gcz k ≤ surfacedata j i ∧ top j i < gcz k) ∨
            (¬wh = ("above") ∧ surfacedata j i < gcz k) then resistivity_value
        else res_model j i k
      if surfacename = ("topography") ∧ gcz k ≤ surfacedata j i ∧ 0 < gcz k then (3 / 10 : α)
      else base
    else res_model j i k)

/-! ## `Model.write_model_file` / `Model.read_model_file` (lines 830-1101)

The persisted format is modelled at the level of the numbers it stores: a
fixed-point field with three fraction digits stores `fmtFixed3 x`, a
scientific field with five fraction digits stores `fmtSci5 x` (Python's
string formatting rounds half-to-even, and parsing the decimal string back
recovers exactly the rounded value). -/

/-- Value stored by the node format `'{0:>12.3f}'` (and the grid-center
format `'{0:>16.3f}'`): round half-to-even at three fraction digits. -/
def fmtFixed3 (x : α) : α := npRound x 3

/-- Value stored by `'{0:>13.5E}'` for a positive argument: the mantissa
`y / 10 ** e` (with `e = Int.log 10 y` the decimal exponent) rounded
half-to-even at five fraction digits, times `10 ** e`. -/
def fmtSci5Pos (y : α) : α :=
  (roundHalfEven (y / (10 : α) ^ Int.log 10 y * 10 ^ 5) : α) / 10 ^ 5 *
    (10 : α) ^ Int.log 10 y

/-- Value stored by the resistivity format `'{0:>13.5E}'`. -/
def fmtSci5 (y : α) : α :=
  if y = 0 then 0 else if y < 0 then -fmtSci5Pos (-y) else fmtSci5Pos y

/-- The three values of `Model.res_scale` recognized by the codec
(`'log'` is an alias of `'log10'` in the source). -/
inductive ResScale
  | loge
  | log10
  | linear

/-- Scale applied on write (lines 920-927): `loge → np.log`,
`log10 → np.log10`, `linear →` unscaled. -/
noncomputable def scaleApply : ResScale → ℝ → ℝ
  | ResScale.loge => Real.log
  | ResScale.log10 => Real.logb 10
  | ResScale.linear => id

/-- Inverse scale applied on read (lines 1073-1077): `loge → np.e ** v`,
`log10 → 10 ** v`, `linear →` unchanged. -/
noncomputable def scaleInvert : ResScale → ℝ → ℝ
  | ResScale.loge => Real.exp
  | ResScale.log10 => fun v => (10 : ℝ) ^ v
  | ResScale.linear => fun v => v

/-- The model state consumed by `write_model_file`. -/
structure ModelData where
  nodes_north : List ℝ
  nodes_east : List ℝ
  nodes_z : List ℝ
  res_model : ℕ → ℕ → ℕ → ℝ
  grid_center : ℝ × ℝ × ℝ
  mesh_rotation_angle : ℝ
  res_scale : ResScale

/-- The numeric content of a persisted model file: header counts and scale,
the three node-width lines, the resistivity values as laid out in the file
(`res_vals nn ee zz` is the `nn`-th value of the `ee`-th line of the `zz`-th
depth block; the write reverses the north axis), grid center and rotation. -/
structure ModelFile where
  n_north : ℕ
  n_east : ℕ
  n_z : ℕ
  scale : ResScale
  nodes_north : List ℝ
  nodes_east : List ℝ
  nodes_z : List ℝ
  res_vals : ℕ → ℕ → ℕ → ℝ
  center : ℝ × ℝ × ℝ
  rotation : ℝ

/-- `Model.write_model_file` (lines 896-951): node widths are written as
`'{0:>12.3f}'.format(abs(node))`; the resistivity volume is reversed along
the north axis, scaled per `res_scale`, and written as `'{0:>13.5E}'`; the
grid center uses `'{0:>16.3f}'` and the rotation angle `'{0:>9.3f}'`. -/
noncomputable def write_model_file (m : ModelData) : ModelFile :=
  { n_north := m.nodes_north.length
    n_east := m.nodes_east.length
    n_z := m.nodes_z.length
    scale := m.res_scale
    nodes_north := m.nodes_north.map (fun x => fmtFixed3 |x|)
    nodes_east := m.nodes_east.map (fun x => fmtFixed3 |x|)
    nodes_z := m.nodes_z.map (fun x => fmtFixed3 |x|)
    res_vals := fun nn ee zz =>
      fmtSci5 (scaleApply m.res_scale (m.res_model (m.nodes_north.length - 1 - nn) ee zz))
    center := (fmtFixed3 m.grid_center.1, fmtFixed3 m.grid_center.2.1,
      fmtFixed3 m.grid_center.2.2)
    rotation := npRound m.mesh_rotation_angle 3 }

/-- The model state produced by `read_model_file`. -/
structure ReadModel where
  nodes_north : List ℝ
  nodes_east : List ℝ
  nodes_z : List ℝ
  grid_north : List ℝ
  grid_east : List ℝ
  grid_z : List ℝ
  res_model : ℕ → ℕ → ℕ → ℝ
  grid_center : ℝ × ℝ × ℝ
  rotation_angle : ℝ

/-- `Model.read_model_file` (lines 1012-1091): node lines are parsed back,
the node setters regenerate the grid arrays (centered for north/east,
cumulative for depth), each block line is reversed back into south-to-north
order, the declared scale is inverted to linear Ohm-m, and the horizontal
grids are shifted by the difference between the declared center and the
geometric center implied by the node sums. -/
noncomputable def read_model_file (f : ModelFile) : ReadModel :=
  let res0 := fun n e z => f.res_vals (f.n_north - 1 - n) e z
  let res1 := fun n e z => scaleInvert f.scale (res0 n e z)
  let shift_north := f.center.1 + f.nodes_north.sum / 2
  let shift_east := f.center.2.1 + f.nodes_east.sum / 2
  { nodes_north := f.nodes_north
    nodes_east := f.nodes_east
    nodes_z := f.nodes_z
    grid_north := (grid_from_nodes_h f.nodes_north).map (fun g => g + shift_north)
    grid_east := (grid_from_nodes_h f.nodes_east).map (fun g => g + shift_east)
    grid_z := grid_from_nodes_z f.nodes_z
    res_model := res1
    grid_center := f.center
    rotation_angle := f.rotation }

/-! ## Concrete run of `make_mesh` used to test the collision-avoidance
invariant: a single station at relative coordinates `(0, 0)` with the
constructor defaults except `pad_method = 'stretch'`. -/

/-- A `Model` configuration: all `Model.__init__` defaults except
`pad_method = 'stretch'`. -/
noncomputable def cfgStretch : MeshConfig :=
  { cell_size_east := 500
    cell_size_north := 500
    pad_east := 7
    pad_north := 7
    pad_z := 4
    pad_num := 3
    ew_ext := 100000
    ns_ext := 100000
    pad_stretch_h := 6 / 5
    pad_stretch_v := 6 / 5
    pad_method := PadMethod.stretch
    z1_layer := 10
    z_target_depth := 50000
    z_bottom := 300000
    n_layers := 30 }

/-- A station set holding a single station at `(rel_east, rel_north) = (0, 0)`. -/
def stationsOrigin : StationLocations ℝ := { rel_east := [0], rel_north := [0] }

/-- The inner regular east-axis grid produced by `make_mesh` in the scenario of
`cfgStretch` / `stationsOrigin`. -/
def c1Inner : List ℝ :=
  [-2500, -2000, -1500, -1000, -500, 0, 500, 1000, 1500, 2000, 2500]

/-- The one-sided padding distances in that scenario. -/
def c1Pad : List ℝ := [500, 1100, 1800, 2700, 3700, 4900, 6400]

/-- The full east-axis grid in that scenario. -/
def c1Grid : List ℝ :=
  [-8900, -7400, -6200, -5200, -4300, -3600, -3000,
   -2500, -2000, -1500, -1000, -500, 0, 500, 1000, 1500, 2000, 2500,
   3000, 3600, 4300, 5200, 6200, 7400, 8900]

/-- A one-cell model with linear resistivity scale used to witness the codec
round-trip theorem. -/
noncomputable def mW : ModelData :=
  { nodes_north := [1]
    nodes_east := [1]
    nodes_z := [1]
    res_model := fun _ _ _ => 100
    grid_center := (0, 0, 0)
    mesh_rotation_angle := 0
    res_scale := ResScale.linear }

/-! # Properties of the rounding primitives -/

theorem roundHalfEven_eq_floor {x : α} (h : Int.fract x < 1 / 2) :
    roundHalfEven x = ⌊x⌋ := by
  unfold roundHalfEven
  rw [if_pos h]

theorem roundHalfEven_eq_floor_add_one {x : α} (h : 1 / 2 < Int.fract x) :
    roundHalfEven x = ⌊x⌋ + 1 := by
  unfold roundHalfEven
  rw [if_neg (by linarith), if_pos h]

/-- `roundHalfEven x` is either the floor or the floor plus one. -/
theorem roundHalfEven_cases (x : α) :
    roundHalfEven x = ⌊x⌋ ∨ roundHalfEven x = ⌊x⌋ + 1 := by
  unfold roundHalfEven
  split_ifs <;> simp

theorem roundHalfEven_ge_floor (x : α) : ⌊x⌋ ≤ roundHalfEven x := by
  rcases roundHalfEven_cases x with h | h <;> omega

theorem roundHalfEven_le_floor_add_one (x : α) : roundHalfEven x ≤ ⌊x⌋ + 1 := by
  rcases roundHalfEven_cases x with h | h <;> omega

/-- Evaluation of `roundHalfEven` when the fractional part is below one half. -/
theorem roundHalfEven_eval_low (x : α) (n : ℤ) (h1 : (n : α) ≤ x)
    (h2 : x < (n : α) + 1 / 2) : roundHalfEven x = n := by
  have hfl : ⌊x⌋ = n := Int.floor_eq_iff.mpr ⟨h1, by linarith⟩
  have hfr : Int.fract x < 1 / 2 := by
    have hs := Int.self_sub_floor x
    rw [hfl] at hs
    linarith
  rw [roundHalfEven_eq_floor hfr, hfl]

/-- Evaluation of `roundHalfEven` when the fractional part is above one half. -/
theorem roundHalfEven_eval_high (x : α) (n : ℤ) (h1 : (n : α) + 1 / 2 < x)
    (h2 : x < (n : α) + 1) : roundHalfEven x = n + 1 := by
  have hfl : ⌊x⌋ = n := Int.floor_eq_iff.mpr ⟨by linarith, by linarith⟩
  have hfr : 1 / 2 < Int.fract x := by
    have hs := Int.self_sub_floor x
    rw [hfl] at hs
    linarith
  rw [roundHalfEven_eq_floor_add_one hfr, hfl]

/-- Evaluation of `roundHalfEven` at an exact tie with an even floor. -/
theorem roundHalfEven_eval_tie_even (x : α) (n : ℤ) (h1 : x = (n : α) + 1 / 2)
    (h2 : n % 2 = 0) : roundHalfEven x = n := by
  have hfl : ⌊x⌋ = n := Int.floor_eq_iff.mpr ⟨by rw [h1]; linarith, by rw [h1]; linarith⟩
  have hfr : Int.fract x = 1 / 2 := by
    have hs := Int.self_sub_floor x
    rw [hfl] at hs
    rw [← hs, h1]
    ring
  unfold roundHalfEven
  rw [hfr, hfl, if_neg (by norm_num), if_neg (by norm_num), if_pos h2]

/-- Evaluation of `roundHalfEven` at an exact tie with an odd floor. -/
theorem roundHalfEven_eval_tie_odd (x : α) (n : ℤ) (h1 : x = (n : α) + 1 / 2)
    (h2 : n % 2 = 1) : roundHalfEven x = n + 1 := by
  have hfl : ⌊x⌋ = n := Int.floor_eq_iff.mpr ⟨by rw [h1]; linarith, by rw [h1]; linarith⟩
  have hfr : Int.fract x = 1 / 2 := by
    have hs := Int.self_sub_floor x
    rw [hfl] at hs
    rw [← hs, h1]
    ring
  unfold roundHalfEven
  rw [hfr, hfl, if_neg (by norm_num), if_neg (by norm_num), if_neg (by omega)]

/-- The absolute rounding error of `roundHalfEven` is at most one half. -/
theorem abs_roundHalfEven_sub_le (x : α) : |(roundHalfEven x : α) - x| ≤ 1 / 2 := by
  have hfr0 : 0 ≤ Int.fract x := Int.fract_nonneg x
  have hfr1 : Int.fract x < 1 := Int.fract_lt_one x
  have hs := Int.self_sub_floor x
  unfold roundHalfEven
  split_ifs with h1 h2 h3 <;> rw [abs_le] <;> push_cast <;> constructor <;> linarith

/-- `roundHalfEven` is monotone. -/
theorem roundHalfEven_mono {x y : α} (h : x ≤ y) : roundHalfEven x ≤ roundHalfEven y := by
  rcases lt_or_le ⌊x⌋ ⌊y⌋ with hf | hf
  · calc roundHalfEven x ≤ ⌊x⌋ + 1 := roundHalfEven_le_floor_add_one x
      _ ≤ ⌊y⌋ := hf
      _ ≤ roundHalfEven y := roundHalfEven_ge_floor y
  · have hfe : ⌊x⌋ = ⌊y⌋ := le_antisymm (Int.floor_le_floor h) hf
    have hfr : Int.fract x ≤ Int.fract y := by
      have hx := Int.self_sub_floor x
      have hy := Int.self_sub_floor y
      have hc : (⌊x⌋ : α) = (⌊y⌋ : α) := by rw [hfe]
      linarith
    unfold roundHalfEven
    rw [hfe]
    split_ifs <;> first
      | omega
      | (exfalso; linarith)

/-- `roundHalfEven` of a nonnegative argument is nonnegative. -/
theorem roundHalfEven_nonneg {x : α} (h : 0 ≤ x) : 0 ≤ roundHalfEven x := by
  have h0 : (0 : ℤ) = roundHalfEven (0 : α) := by
    rw [roundHalfEven_eq_floor (by norm_num)]
    simp
  rw [h0]
  exact roundHalfEven_mono h

/-- `npRound` is monotone in its argument. -/
theorem npRound_mono {x y : α} (d : ℤ) (h : x ≤ y) : npRound x d ≤ npRound y d := by
  unfold npRound
  have hp : (0 : α) < (10 : α) ^ d := zpow_pos (by norm_num) d
  have hr : (roundHalfEven (x * (10 : α) ^ d) : α) ≤ roundHalfEven (y * (10 : α) ^ d) := by
    exact_mod_cast roundHalfEven_mono (mul_le_mul_of_nonneg_right h hp.le)
  gcongr

/-- `npRound` of a nonnegative argument is nonnegative. -/
theorem npRound_nonneg {x : α} (d : ℤ) (h : 0 ≤ x) : 0 ≤ npRound x d := by
  unfold npRound
  have hp : (0 : α) < (10 : α) ^ d := zpow_pos (by norm_num) d
  have hr : (0 : α) ≤ (roundHalfEven (x * (10 : α) ^ d) : α) := by
    exact_mod_cast roundHalfEven_nonneg (mul_nonneg h hp.le)
  positivity

/-- The absolute error of `npRound x d` is at most half of `10 ^ (-d)`. -/
theorem abs_npRound_sub_le (x : α) (d : ℤ) :
    |npRound x d - x| ≤ 1 / 2 * (10 : α) ^ (-d) := by
  unfold npRound
  have hp : (0 : α) < (10 : α) ^ d := zpow_pos (by norm_num) d
  have key := abs_roundHalfEven_sub_le (x * (10 : α) ^ d)
  have h2 : (roundHalfEven (x * (10 : α) ^ d) : α) / (10 : α) ^ d - x =
      ((roundHalfEven (x * (10 : α) ^ d) : α) - x * (10 : α) ^ d) / (10 : α) ^ d := by
    field_simp
    ring
  rw [h2, abs_div, abs_of_pos hp, div_le_iff hp, zpow_neg]
  calc |(roundHalfEven (x * (10 : α) ^ d) : α) - x * (10 : α) ^ d| ≤ 1 / 2 := key
    _ = 1 / 2 * ((10 : α) ^ d)⁻¹ * (10 : α) ^ d := by
      field_simp

/-- Evaluation of `npRound`: if `n ≤ x * 10 ^ d < n + 1/2` and `v * 10 ^ d = n`
then `npRound x d = v`. -/
theorem npRound_eval_low (x : α) (d : ℤ) (n : ℤ) (v : α)
    (hv : v * (10 : α) ^ d = (n : α)) (h1 : (n : α) ≤ x * (10 : α) ^ d)
    (h2 : x * (10 : α) ^ d < (n : α) + 1 / 2) : npRound x d = v := by
  unfold npRound
  rw [roundHalfEven_eval_low _ n h1 h2]
  have hp : (0 : α) < (10 : α) ^ d := zpow_pos (by norm_num) d
  rw [div_eq_iff hp.ne.symm, hv]

/-- Evaluation of `npRound`: if `n + 1/2 < x * 10 ^ d < n + 1` and
`v * 10 ^ d = n + 1` then `npRound x d = v`. -/
theorem npRound_eval_high (x : α) (d : ℤ) (n : ℤ) (v : α)
    (hv : v * (10 : α) ^ d = (n : α) + 1) (h1 : (n : α) + 1 / 2 < x * (10 : α) ^ d)
    (h2 : x * (10 : α) ^ d < (n : α) + 1) : npRound x d = v := by
  unfold npRound
  rw [roundHalfEven_eval_high _ n h1 h2]
  have hp : (0 : α) < (10 : α) ^ d := zpow_pos (by norm_num) d
  rw [div_eq_iff hp.ne.symm, hv]
  push_cast
  ring

/-- Evaluation of `npRound` at an exact tie with even integer part. -/
theorem npRound_eval_tie_even (x : α) (d : ℤ) (n : ℤ) (v : α)
    (hv : v * (10 : α) ^ d = (n : α)) (h1 : x * (10 : α) ^ d = (n : α) + 1 / 2)
    (h2 : n % 2 = 0) : npRound x d = v := by
  unfold npRound
  rw [roundHalfEven_eval_tie_even _ n h1 h2]
  have hp : (0 : α) < (10 : α) ^ d := zpow_pos (by norm_num) d
  rw [div_eq_iff hp.ne.symm, hv]

/-- Evaluation of `npRound` at an exact tie with odd integer part. -/
theorem npRound_eval_tie_odd (x : α) (d : ℤ) (n : ℤ) (v : α)
    (hv : v * (10 : α) ^ d = (n : α) + 1) (h1 : x * (10 : α) ^ d = (n : α) + 1 / 2)
    (h2 : n % 2 = 1) : npRound x d = v := by
  unfold npRound
  rw [roundHalfEven_eval_tie_odd _ n h1 h2]
  have hp : (0 : α) < (10 : α) ^ d := zpow_pos (by norm_num) d
  rw [div_eq_iff hp.ne.symm, hv]
  push_cast
  ring

/-! # Node/grid symbiosis (claim C3) -/

theorem grid_from_nodes_h_getD (nodes : List α) (i : ℕ) (h : i ≤ nodes.length) :
    (grid_from_nodes_h nodes).getD i 0 = -nodes.sum / 2 + (nodes.take i).sum := by
  unfold grid_from_nodes_h
  rcases lt_or_eq_of_le h with h | h
  · rw [List.getD_append _ _ _ _ (by simpa using h)]
    rw [List.getD_eq_getElem _ _ (by simpa using h)]
    simp
  · subst h
    rw [List.getD_append_right _ _ _ _ (by simp)]
    simp [List.getD, List.take_length]
    ring

theorem grid_from_nodes_z_getD (nodes : List α) (i : ℕ) (h : i ≤ nodes.length) :
    (grid_from_nodes_z nodes).getD i 0 = (nodes.take i).sum := by
  unfold grid_from_nodes_z
  rcases lt_or_eq_of_le h with h | h
  · rw [List.getD_append _ _ _ _ (by simpa using h)]
    rw [List.getD_eq_getElem _ _ (by simpa using h)]
    simp
  · subst h
    rw [List.getD_append_right _ _ _ _ (by simp)]
    simp [List.getD, List.take_length]

theorem grid_from_nodes_h_length (nodes : List α) :
    (grid_from_nodes_h nodes).length = nodes.length + 1 := by
  simp [grid_from_nodes_h]

theorem grid_from_nodes_z_length (nodes : List α) :
    (grid_from_nodes_z nodes).length = nodes.length + 1 := by
  simp [grid_from_nodes_z]

/-- Reading node widths back from any grid of the affine form
`grid[j] = c + sum of the first j nodes` recovers the node array exactly. -/
theorem nodes_from_grid_eval (nodes grid : List α) (c : α)
    (hlen : grid.length = nodes.length + 1)
    (hval : ∀ j, j ≤ nodes.length → grid.getD j 0 = c + (nodes.take j).sum)
    (hpos : ∀ x ∈ nodes, 0 < x) :
    nodes_from_grid grid = nodes := by
  unfold nodes_from_grid
  apply List.ext_getElem
  · simp [hlen]
  · intro n h1 h2
    rw [List.getElem_map, List.getElem_range]
    have hn : n < nodes.length := by
      simpa [hlen] using h1
    have e1 : grid.getD (n + 1) 0 = c + (nodes.take (n + 1)).sum := hval _ (by omega)
    have e2 : grid.getD n 0 = c + (nodes.take n).sum := hval _ (by omega)
    rw [e1, e2, List.sum_take_succ _ _ hn]
    have hx : 0 < nodes[n] := hpos _ (List.getElem_mem _)
    rw [show c + ((nodes.take n).sum + nodes[n]) - (c + (nodes.take n).sum) = nodes[n] by ring]
    exact abs_of_pos hx

/-- C3: for every array of positive node widths, setting the node array
(`nodes_east`, `nodes_north`, or `nodes_z` — the setter regenerates the grid
via `grid_from_nodes_h` / `grid_from_nodes_z`) and then reading it back (the
getter `nodes_from_grid`) yields the original widths exactly (hence within
any floating-point tolerance); the regenerated horizontal grid has endpoints
at minus and plus half the sum of the widths, and the regenerated depth grid
starts at zero and ends at the sum of the widths. -/
theorem C3_nodes_grid_roundtrip (nodes : List α) (hpos : ∀ x ∈ nodes, 0 < x) :
    nodes_from_grid (grid_from_nodes_h nodes) = nodes ∧
    (grid_from_nodes_h nodes).getD 0 0 = -nodes.sum / 2 ∧
    (grid_from_nodes_h nodes).getD nodes.length 0 = nodes.sum / 2 ∧
    nodes_from_grid (grid_from_nodes_z nodes) = nodes ∧
    (grid_from_nodes_z nodes).getD 0 0 = 0 ∧
    (grid_from_nodes_z nodes).getD nodes.length 0 = nodes.sum := by
  refine ⟨?_, ?_, ?_, ?_, ?_, ?_⟩
  · exact nodes_from_grid_eval nodes _ (-nodes.sum / 2) (grid_from_nodes_h_length nodes)
      (fun j hj => grid_from_nodes_h_getD nodes j hj) hpos
  · rw [grid_from_nodes_h_getD nodes 0 (by omega)]
    simp
  · rw [grid_from_nodes_h_getD nodes _ le_rfl, List.take_length]
    ring
  · exact nodes_from_grid_eval nodes _ 0 (grid_from_nodes_z_length nodes)
      (fun j hj => by rw [grid_from_nodes_z_getD nodes j hj]; ring) hpos
  · rw [grid_from_nodes_z_getD nodes 0 (by omega)]
    simp
  · rw [grid_from_nodes_z_getD nodes _ le_rfl, List.take_length]

/-- Witness for C3 at the concrete node array `[2, 3]` over `ℚ`. -/
theorem C3_nodes_grid_roundtrip_witness :
    (∀ x ∈ ([2, 3] : List ℚ), 0 < x) ∧
    (nodes_from_grid (grid_from_nodes_h ([2, 3] : List ℚ)) = [2, 3] ∧
      (grid_from_nodes_h ([2, 3] : List ℚ)).getD 0 0 = -(([2, 3] : List ℚ).sum) / 2 ∧
      (grid_from_nodes_h ([2, 3] : List ℚ)).getD ([2, 3] : List ℚ).length 0 =
        ([2, 3] : List ℚ).sum / 2 ∧
      nodes_from_grid (grid_from_nodes_z ([2, 3] : List ℚ)) = [2, 3] ∧
      (grid_from_nodes_z ([2, 3] : List ℚ)).getD 0 0 = 0 ∧
      (grid_from_nodes_z ([2, 3] : List ℚ)).getD ([2, 3] : List ℚ).length 0 =
        ([2, 3] : List ℚ).sum) :=
  ⟨by norm_num, C3_nodes_grid_roundtrip ([2, 3] : List ℚ) (by norm_num)⟩

/-! # First-argmin property of `get_nearest_index` (claim C10) -/

/-- Specification of `List.min?` on a linear order. -/
theorem listMin?_spec {l : List α} {m : α} (hm : l.min? = some m) :
    m ∈ l ∧ ∀ b ∈ l, m ≤ b := by
  have inst : Std.Antisymm (fun (x1 x2 : α) => x1 ≤ x2) := ⟨fun h h2 => le_antisymm h h2⟩
  exact (List.min?_eq_some_iff (α := α) (fun a => le_refl a)
    (fun a b => min_choice a b) (fun a b c => le_min_iff)).mp hm

/-- C10: for every non-empty array and target value, `get_nearest_index`
returns the smallest index at which `|array[i] - value|` attains its minimum
over the array (ties broken in favour of the earliest position). -/
theorem C10_nearest_index_first_argmin (array : List α) (value : α)
    (hne : array ≠ []) :
    ∃ i, get_nearest_index array value = some i ∧ i < array.length ∧
      (∀ j, j < array.length → |array.getD i 0 - value| ≤ |array.getD j 0 - value|) ∧
      (∀ j, j < i → |array.getD j 0 - value| > |array.getD i 0 - value|) := by
  set d := array.map (fun a => |a - value|) with hd
  have hdne : d ≠ [] := by
    simpa [hd] using hne
  obtain ⟨m, hm⟩ : ∃ m, d.min? = some m := by
    cases hmm : d.min? with
    | some m => exact ⟨m, rfl⟩
    | none => exact absurd (List.min?_eq_none_iff.mp hmm) hdne
  obtain ⟨hmem, hmin⟩ := listMin?_spec hm
  set p : α → Bool := fun x => decide (x = m) with hp
  set i := d.findIdx p with hi
  have hlt : i < d.length := List.findIdx_lt_length_of_exists ⟨m, hmem, by simp [hp]⟩
  have hilen : i < array.length := by
    simpa [hd] using hlt
  have hdi : d.getD i 0 = m := by
    rw [List.getD_eq_getElem _ _ hlt]
    have hfi := List.findIdx_getElem (w := hlt)
    simpa [hp] using hfi
  have hgetD : ∀ j, j < array.length → d.getD j 0 = |array.getD j 0 - value| := by
    intro j hj
    have hjd : j < d.length := by simpa [hd] using hj
    rw [List.getD_eq_getElem _ _ hjd, List.getD_eq_getElem _ _ hj]
    simp [hd]
  have hmemD : ∀ j, j < d.length → d.getD j 0 ∈ d := by
    intro j hj
    rw [List.getD_eq_getElem _ _ hj]
    exact List.getElem_mem _
  refine ⟨i, ?_, hilen, ?_, ?_⟩
  · unfold get_nearest_index
    rw [← hd]
    simp only [hm]
    rfl
  · intro j hj
    rw [← hgetD i hilen, ← hgetD j hj, hdi]
    exact hmin _ (hmemD j (by simpa [hd] using hj))
  · intro j hj
    have hjlen : j < array.length := lt_trans hj hilen
    have hjd : j < d.length := by simpa [hd] using hjlen
    have hne2 : p (d.getD j 0) = false := by
      rw [List.getD_eq_getElem _ _ hjd]
      exact List.not_of_lt_findIdx (by simpa [hi] using hj)
    have hne3 : d.getD j 0 ≠ m := by simpa [hp] using hne2
    have hle : m ≤ d.getD j 0 := hmin _ (hmemD j hjd)
    rw [gt_iff_lt, ← hgetD i hilen, ← hgetD j hjlen, hdi]
    exact lt_of_le_of_ne hle (Ne.symm hne3)

/-- Witness for C10 at the concrete array `[3, 1, 5]` and target `2` over `ℚ`. -/
theorem C10_nearest_index_witness :
    ∃ i, get_nearest_index ([3, 1, 5] : List ℚ) 2 = some i ∧ i < ([3, 1, 5] : List ℚ).length ∧
      (∀ j, j < ([3, 1, 5] : List ℚ).length →
        |([3, 1, 5] : List ℚ).getD i 0 - 2| ≤ |([3, 1, 5] : List ℚ).getD j 0 - 2|) ∧
      (∀ j, j < i →
        |([3, 1, 5] : List ℚ).getD j 0 - 2| > |([3, 1, 5] : List ℚ).getD i 0 - 2|) :=
  C10_nearest_index_first_argmin ([3, 1, 5] : List ℚ) 2 (by simp)

/-! # Monotonicity of the padding strategies (claim C2) -/

/-- Adjacent-pairs criterion for `Chain'` on a mapped range. -/
theorem chain'_map_range {β : Type} {r : β → β → Prop} (f : ℕ → β) (n : ℕ)
    (h : ∀ i, i + 1 < n → r (f i) (f (i + 1))) : List.Chain' r ((List.range n).map f) := by
  rw [List.chain'_map, List.chain'_iff_get]
  intro i hi
  simp only [List.get_eq_getElem, List.getElem_range]
  have hi2 : i < n - 1 := by simpa using hi
  exact h i (by omega)

/-- The geometric-series candidate of `get_padding_cells` is at least one and
monotone in the index, for stretch factors above one. -/
theorem geom_candidate_mono {s : α} (hs : 1 < s) (i : ℕ) :
    (1 - s ^ (i + 1)) / (1 - s) ≤ (1 - s ^ (i + 2)) / (1 - s) ∧
      1 ≤ (1 - s ^ (i + 1)) / (1 - s) := by
  have hs1 : (0 : α) < s - 1 := by linarith
  have e : ∀ j : ℕ, (1 - s ^ j) / (1 - s) = (s ^ j - 1) / (s - 1) := by
    intro j
    rw [show (1 - s ^ j) = -(s ^ j - 1) by ring, show (1 - s) = -(s - 1) by ring,
      neg_div_neg_eq]
  rw [e, e]
  have hp : s ^ (i + 1) ≤ s ^ (i + 2) := pow_le_pow_right₀ hs.le (by omega)
  have hq : s ^ 1 ≤ s ^ (i + 1) := pow_le_pow_right₀ hs.le (by omega)
  constructor
  · rw [div_le_div_iff hs1 hs1]
    nlinarith
  · rw [le_div_iff hs1]
    have hq2 : s ≤ s ^ (i + 1) := by simpa using hq
    linarith

theorem logspace10_length (u v : ℝ) (n : ℕ) : (logspace10 u v n).length = n := by
  unfold logspace10
  rw [List.length_map, List.length_range]

theorem get_padding_cells_length (w D s : ℝ) (N : ℕ) :
    (get_padding_cells w D N s).length = N := by
  simp [get_padding_cells]

theorem get_padding_from_stretch_length (w s : α) (N : ℕ) :
    (get_padding_from_stretch w s N).length = N := by
  simp [get_padding_from_stretch]

theorem get_padding_cells2_length (w core D : ℝ) (N : ℕ) :
    (get_padding_cells2 w core D N).length = N := by
  unfold get_padding_cells2
  rw [List.length_map, logspace10_length]

/-- The `extent1` strategy produces a nondecreasing sequence: the geometric
candidate grows with the index, and when the exponential candidate shrinks
(scale factor below one) it stays below the geometric one. -/
theorem get_padding_cells_chain_le (w D s : ℝ) (N : ℕ)
    (hw : 0 < w) (hD : 0 < D) (hs : 1 < s) :
    List.Chain' (· ≤ ·) (get_padding_cells w D N s) := by
  unfold get_padding_cells
  apply chain'_map_range
  intro i hi
  have hws : (0 : ℝ) < w * s := by positivity
  set k := paddingScaling w D N s with hk
  have hk0 : 0 < k := Real.rpow_pos_of_pos (by positivity) _
  have hmult := geom_candidate_mono hs i
  have hmono : npRound (w * s * ((1 - s ^ (i + 1)) / (1 - s))) (-2) ≤
      npRound (w * s * ((1 - s ^ (i + 1 + 1)) / (1 - s))) (-2) := by
    apply npRound_mono
    nlinarith [hmult.1]
  rcases le_or_lt 1 k with h1 | h1
  · apply max_le_max _ hmono
    apply npRound_mono
    have : k ^ i ≤ k ^ (i + 1) := pow_le_pow_right₀ h1 (by omega)
    nlinarith
  · have hexp : npRound (w * s * k ^ i) (-2) ≤
        npRound (w * s * ((1 - s ^ (i + 1)) / (1 - s))) (-2) := by
      apply npRound_mono
      have h2 : k ^ i ≤ 1 := pow_le_one₀ hk0.le h1.le
      nlinarith [hmult.2]
    apply max_le
    · exact le_trans hexp (le_trans hmono (le_max_right _ _))
    · exact le_trans hmono (le_max_right _ _)

/-- The `stretch` strategy produces a nondecreasing sequence: it is the
cumulative sum of nonnegative rounded cell widths. -/
theorem get_padding_from_stretch_chain_le (w s : α) (N : ℕ) (hw : 0 < w) (hs : 0 < s) :
    List.Chain' (· ≤ ·) (get_padding_from_stretch w s N) := by
  unfold get_padding_from_stretch
  apply chain'_map_range
  intro i hi
  have hlen : ((List.range N).map (fun j => npRound (w * s ^ j) (-2))).length = N := by simp
  have hplus : i + 1 < ((List.range N).map (fun j => npRound (w * s ^ j) (-2))).length := by
    omega
  rw [List.sum_take_succ _ (i + 1) hplus]
  have hx : (0 : α) ≤ ((List.range N).map (fun j => npRound (w * s ^ j) (-2)))[i + 1] := by
    rw [List.getElem_map, List.getElem_range]
    exact npRound_nonneg _ (by positivity)
  linarith

/-- The `extent2` strategy produces a nondecreasing sequence whenever the
core edge is positive and does not exceed the (guarded) target distance. -/
theorem get_padding_cells2_chain_le (w core D : ℝ) (N : ℕ)
    (hcore : 0 < core) (hcm : core ≤ max (w * N) D) :
    List.Chain' (· ≤ ·) (get_padding_cells2 w core D N) := by
  unfold get_padding_cells2 logspace10
  rw [List.map_map]
  apply chain'_map_range
  intro i hi
  simp only [Function.comp]
  have hmd : (0 : ℝ) < max (w * N) D := lt_of_lt_of_le hcore hcm
  have huv : Real.logb 10 core ≤ Real.logb 10 (max (w * N) D) :=
    (Real.logb_le_logb (by norm_num) hcore hmd).mpr hcm
  have hN1 : (0 : ℝ) < (N : ℝ) - 1 := by
    have h2N : 2 ≤ N := by omega
    have h2 : (2 : ℝ) ≤ (N : ℝ) := by exact_mod_cast h2N
    linarith
  have harg : (10 : ℝ) ^ (Real.logb 10 core + (i : ℝ) *
        (Real.logb 10 (max (w * N) D) - Real.logb 10 core) / ((N : ℝ) - 1)) ≤
      (10 : ℝ) ^ (Real.logb 10 core + ((i : ℕ) + 1 : ℝ) *
        (Real.logb 10 (max (w * N) D) - Real.logb 10 core) / ((N : ℝ) - 1)) := by
    apply Real.rpow_le_rpow_of_exponent_le (by norm_num)
    have hincr : (i : ℝ) * ((Real.logb 10 (max (w * N) D) - Real.logb 10 core) / ((N : ℝ) - 1)) ≤
        ((i : ℝ) + 1) * ((Real.logb 10 (max (w * N) D) - Real.logb 10 core) / ((N : ℝ) - 1)) := by
      have hdelta : 0 ≤ (Real.logb 10 (max (w * N) D) - Real.logb 10 core) / ((N : ℝ) - 1) :=
        div_nonneg (by linarith) hN1.le
      nlinarith
    calc Real.logb 10 core + (i : ℝ) *
          (Real.logb 10 (max (w * N) D) - Real.logb 10 core) / ((N : ℝ) - 1)
        = Real.logb 10 core + (i : ℝ) *
          ((Real.logb 10 (max (w * N) D) - Real.logb 10 core) / ((N : ℝ) - 1)) := by ring
      _ ≤ Real.logb 10 core + ((i : ℝ) + 1) *
          ((Real.logb 10 (max (w * N) D) - Real.logb 10 core) / ((N : ℝ) - 1)) := by linarith
      _ = Real.logb 10 core + ((i : ℝ) + 1) *
          (Real.logb 10 (max (w * N) D) - Real.logb 10 core) / ((N : ℝ) - 1) := by ring
  have hr := npRound_mono (-2) harg
  push_cast
  push_cast at hr
  linarith

/-- C2 counterexample: at the valid input `cell_width = 1`, `stretch = 6/5`,
`num_cells = 2` the `stretch` strategy returns `[0, 0]` (both widths round to
zero at the nearest hundred), which is not strictly increasing. -/
theorem C2_strict_increase_cex :
    (0 < (1 : ℝ)) ∧ (1 < (6 / 5 : ℝ)) ∧ (2 ≤ 2) ∧
    get_padding_from_stretch (1 : ℝ) (6 / 5) 2 = [0, 0] ∧
    ¬ List.Chain' (· < ·) (get_padding_from_stretch (1 : ℝ) (6 / 5) 2) := by
  have heval : get_padding_from_stretch (1 : ℝ) (6 / 5) 2 = [0, 0] := by
    unfold get_padding_from_stretch
    have e0 : npRound (1 : ℝ) (-2) = 0 :=
      npRound_eval_low _ _ 0 0 (by norm_num) (by norm_num) (by norm_num)
    have e1 : npRound ((6 : ℝ) / 5) (-2) = 0 :=
      npRound_eval_low _ _ 0 0 (by norm_num) (by norm_num) (by norm_num)
    norm_num [List.range_succ, e0, e1]
  refine ⟨by norm_num, by norm_num, le_rfl, heval, ?_⟩
  rw [heval]
  simp

/-- C2 (amended): for valid inputs (positive cell width, positive target
distance, `N ≥ 2`, stretch above one, and — for `get_padding_cells2` — a
positive core edge not exceeding `max(cell_width*N, max_distance)`), each of
the three padding strategies returns exactly `N` values forming a
nondecreasing sequence.  Strict increase fails in general because the
rounding to the nearest hundred can produce equal (even zero) entries, see
`C2_strict_increase_cex`. -/
theorem C2_padding_monotone (w D s core : ℝ) (N : ℕ) (hw : 0 < w) (hD : 0 < D)
    (hN : 2 ≤ N) (hs : 1 < s) (hcore : 0 < core) (hcm : core ≤ max (w * N) D) :
    ((get_padding_cells w D N s).length = N ∧
      List.Chain' (· ≤ ·) (get_padding_cells w D N s)) ∧
    ((get_padding_from_stretch w s N).length = N ∧
      List.Chain' (· ≤ ·) (get_padding_from_stretch w s N)) ∧
    ((get_padding_cells2 w core D N).length = N ∧
      List.Chain' (· ≤ ·) (get_padding_cells2 w core D N)) :=
  ⟨⟨get_padding_cells_length w D s N, get_padding_cells_chain_le w D s N hw hD hs⟩,
    ⟨get_padding_from_stretch_length w s N,
      get_padding_from_stretch_chain_le w s N hw (by linarith)⟩,
    ⟨get_padding_cells2_length w core D N, get_padding_cells2_chain_le w core D N hcore hcm⟩⟩

/-- Witness for C2 at `w = 500`, `D = 50000`, `s = 6/5`, `core = 600`, `N = 2`. -/
theorem C2_padding_monotone_witness :
    ((get_padding_cells 500 50000 2 (6 / 5)).length = 2 ∧
      List.Chain' (· ≤ ·) (get_padding_cells 500 50000 2 (6 / 5))) ∧
    ((get_padding_from_stretch (500 : ℝ) (6 / 5) 2).length = 2 ∧
      List.Chain' (· ≤ ·) (get_padding_from_stretch (500 : ℝ) (6 / 5) 2)) ∧
    ((get_padding_cells2 500 600 50000 2).length = 2 ∧
      List.Chain' (· ≤ ·) (get_padding_cells2 500 600 50000 2)) :=
  C2_padding_monotone 500 50000 (6 / 5) 600 2 (by norm_num) (by norm_num) le_rfl
    (by norm_num) (by norm_num)
    (le_trans (by norm_num) (le_max_right ((500 : ℝ) * (2 : ℕ)) 50000))

/-! # `make_mesh` error handling (claim C9) -/

/-- C9: `make_mesh` fails immediately, producing no grid, whenever the
station set is unset (`None` station object: `AttributeError` at
`self.station_locations.rel_east`) or empty (`ValueError` raised by `.min()`
on the empty coordinate array), for every configuration. -/
theorem C9_make_mesh_empty_stations (cfg : MeshConfig) :
    (∃ e, makeMesh none cfg = Except.error e) ∧
    (∃ e, makeMesh (some { rel_east := [], rel_north := [] }) cfg = Except.error e) :=
  ⟨⟨_, rfl⟩, ⟨_, rfl⟩⟩

/-! # The log-increasing layer derivation (claim C5) -/

/-- Under positivity, the logspace from `log10 a` to `log10 b` is the
geometric sequence `a * r ^ i` with ratio `r = (b/a) ^ (1/(n-1))`. -/
theorem logspace10_geom (a b : ℝ) (n : ℕ) (ha : 0 < a) (hb : 0 < b) :
    logspace10 (Real.logb 10 a) (Real.logb 10 b) n =
      (List.range n).map (fun (i : ℕ) =>
        a * ((b / a) ^ ((1 : ℝ) / ((n : ℝ) - 1))) ^ i) := by
  unfold logspace10
  apply List.map_congr_left
  intro i hi
  have hba : 0 < b / a := by positivity
  have hlog : Real.logb 10 b - Real.logb 10 a = Real.logb 10 (b / a) := by
    rw [Real.logb_div hb.ne.symm ha.ne.symm]
  rw [hlog]
  have hsplit : Real.logb 10 a + (i : ℝ) * Real.logb 10 (b / a) / ((n : ℝ) - 1) =
      Real.logb 10 a + Real.logb 10 (b / a) * ((1 : ℝ) / ((n : ℝ) - 1) * (i : ℝ)) := by
    ring
  rw [hsplit, Real.rpow_add (by norm_num), Real.rpow_logb (by norm_num) (by norm_num) ha]
  congr 1
  rw [Real.rpow_mul (by positivity : (0:ℝ) ≤ 10), Real.rpow_logb (by norm_num) (by norm_num) hba]
  rw [Real.rpow_mul hba.le, Real.rpow_natCast]

/-- The two-point logspace from `log10 a` to `log10 m` is `[a, m]`. -/
theorem logspace10_two (a m : ℝ) (ha : 0 < a) (hm : 0 < m) :
    logspace10 (Real.logb 10 a) (Real.logb 10 m) 2 = [a, m] := by
  rw [logspace10_geom a m 2 ha hm]
  have h1 : ((1 : ℝ) / ((2 : ℕ) - 1 : ℝ)) = 1 := by norm_num
  norm_num [List.range_succ, h1]
  field_simp

theorem logspace10_two_sum (a m : ℝ) (ha : 0 < a) (hm : 0 < m) :
    (logspace10 (Real.logb 10 a) (Real.logb 10 m) 2).sum = a + m := by
  rw [logspace10_two a m ha hm]
  simp

/-- `mliaAux` stops as soon as the sum condition holds. -/
theorem mliaAux_stop (z1 t f : ℝ) (n : ℕ) (fuel : ℕ) (m : ℝ)
    (h : (logspace10 (Real.logb 10 z1) (Real.logb 10 m) n).sum ≤ t) :
    mliaAux z1 t f n fuel m = (m, true) := by
  cases fuel <;> simp [mliaAux, h]

/-- `mliaAux` shrinks the trial maximum while the sum condition fails. -/
theorem mliaAux_step (z1 t f : ℝ) (n : ℕ) (fuel : ℕ) (m : ℝ) (hfuel : fuel ≠ 0)
    (h : ¬ (logspace10 (Real.logb 10 z1) (Real.logb 10 m) n).sum ≤ t) :
    mliaAux z1 t f n fuel m = mliaAux z1 t f n (fuel - 1) (f * m) := by
  cases fuel with
  | zero => exact absurd rfl hfuel
  | succ fuel => simp [mliaAux, h]

/-- Whenever `mliaAux` reports convergence, the logspace sum at the returned
trial maximum is within the target. -/
theorem mliaAux_sum_le (z1 t f : ℝ) (n : ℕ) :
    ∀ (fuel : ℕ) (m : ℝ), (mliaAux z1 t f n fuel m).2 = true →
      (logspace10 (Real.logb 10 z1) (Real.logb 10 ((mliaAux z1 t f n fuel m).1)) n).sum ≤ t := by
  intro fuel
  induction fuel with
  | zero =>
      intro m hm
      by_cases h : (logspace10 (Real.logb 10 z1) (Real.logb 10 m) n).sum ≤ t
      · rw [mliaAux_stop z1 t f n 0 m h]
        exact h
      · simp [mliaAux, h] at hm
  | succ fuel ih =>
      intro m hm
      by_cases h : (logspace10 (Real.logb 10 z1) (Real.logb 10 m) n).sum ≤ t
      · rw [mliaAux_stop z1 t f n (fuel + 1) m h]
        exact h
      · have hstep := mliaAux_step z1 t f n (fuel + 1) m (by omega) h
        rw [hstep] at hm ⊢
        simpa using ih (f * m) (by simpa using hm)

/-- The logspace is strictly increasing when its endpoints increase. -/
theorem logspace10_chain_lt (a b : ℝ) (n : ℕ) (ha : 0 < a) (hab : a < b) :
    List.Chain' (· < ·) (logspace10 (Real.logb 10 a) (Real.logb 10 b) n) := by
  rw [logspace10_geom a b n ha (lt_trans ha hab)]
  apply chain'_map_range
  intro i hi
  have hba : 1 < b / a := (one_lt_div ha).mpr hab
  have hN1 : (0 : ℝ) < (n : ℝ) - 1 := by
    have h2N : 2 ≤ n := by omega
    have h2 : (2 : ℝ) ≤ (n : ℝ) := by exact_mod_cast h2N
    linarith
  have hr : 1 < (b / a) ^ ((1 : ℝ) / ((n : ℝ) - 1)) := by
    have h0 : (b / a : ℝ) ^ (0 : ℝ) < (b / a) ^ ((1 : ℝ) / ((n : ℝ) - 1)) :=
      Real.rpow_lt_rpow_of_exponent_lt hba (by positivity)
    simpa using h0
  have hp : ((b / a) ^ ((1 : ℝ) / ((n : ℝ) - 1))) ^ i <
      ((b / a) ^ ((1 : ℝ) / ((n : ℝ) - 1))) ^ (i + 1) := pow_lt_pow_right₀ hr (by omega)
  nlinarith

/-- C5 (amended): `make_log_increasing_array` returns exactly `n_layers`
widths, which form the logspace from `z1_layer` to the final trial maximum
produced by the convergence loop; whenever the loop exits through its sum
condition the widths sum to at most the target depth; and the widths are
strictly increasing in the case that the final trial maximum exceeds
`z1_layer` (for targets close to `z1_layer` the loop undershoots and the
array can be strictly decreasing instead, see `C5_strict_increase_cex`). -/
theorem C5_log_array_properties (z1 t f : ℝ) (n : ℕ) (hz : 0 < z1) (ht : z1 < t)
    (hn : 2 ≤ n) (hf0 : 0 < f) (hf1 : f < 1) :
    (make_log_increasing_array z1 t n f).length = n ∧
    ((mliaAux z1 t f n 1000000 t).2 = true →
      (make_log_increasing_array z1 t n f).sum ≤ t) ∧
    (z1 < (mliaAux z1 t f n 1000000 t).1 →
      List.Chain' (· < ·) (make_log_increasing_array z1 t n f)) := by
  refine ⟨?_, ?_, ?_⟩
  · unfold make_log_increasing_array
    exact logspace10_length _ _ _
  · intro hconv
    unfold make_log_increasing_array
    exact mliaAux_sum_le z1 t f n 1000000 t hconv
  · intro hlt
    unfold make_log_increasing_array
    exact logspace10_chain_lt _ _ n hz hlt

/-- Witness for C5 at `z1 = 10`, `target = 10000`, `n = 2`, factor `9/10`. -/
theorem C5_log_array_witness :
    (make_log_increasing_array 10 10000 2 (9 / 10)).length = 2 ∧
    ((mliaAux 10 10000 (9 / 10) 2 1000000 10000).2 = true →
      (make_log_increasing_array 10 10000 2 (9 / 10)).sum ≤ 10000) ∧
    ((10 : ℝ) < (mliaAux 10 10000 (9 / 10) 2 1000000 10000).1 →
      List.Chain' (· < ·) (make_log_increasing_array 10 10000 2 (9 / 10))) :=
  C5_log_array_properties 10 10000 (9 / 10) 2 (by norm_num) (by norm_num) le_rfl
    (by norm_num) (by norm_num)

/-- The convergence loop at `z1 = 10`, `target = 19`, `n = 2` performs eight
shrink steps (`19 * 0.9 ^ 8 = 8.17887699` is the first trial maximum with
`10 + m ≤ 19`) and exits converged. -/
theorem mlia_cex_eval : mliaAux 10 19 (9/10) 2 1000000 19 = (817887699 / 100000000, true) := by
  have stop : ∀ (fuel : ℕ) (m : ℝ), 0 < m → m ≤ 9 →
      mliaAux 10 19 (9/10) 2 fuel m = (m, true) := by
    intro fuel m hm h9
    apply mliaAux_stop
    rw [logspace10_two_sum 10 m (by norm_num) hm]
    linarith
  have step : ∀ (fuel : ℕ) (m : ℝ), fuel ≠ 0 → 9 < m →
      mliaAux 10 19 (9/10) 2 fuel m = mliaAux 10 19 (9/10) 2 (fuel - 1) (9/10 * m) := by
    intro fuel m hfuel h9
    apply mliaAux_step _ _ _ _ _ _ hfuel
    rw [logspace10_two_sum 10 m (by norm_num) (by linarith)]
    linarith
  calc mliaAux 10 19 (9/10) 2 1000000 19
      = mliaAux 10 19 (9/10) 2 999999 (171/10) := by
        rw [step 1000000 19 (by norm_num) (by norm_num)]; norm_num
    _ = mliaAux 10 19 (9/10) 2 999998 (1539/100) := by
        rw [step 999999 (171/10) (by norm_num) (by norm_num)]; norm_num
    _ = mliaAux 10 19 (9/10) 2 999997 (13851/1000) := by
        rw [step 999998 (1539/100) (by norm_num) (by norm_num)]; norm_num
    _ = mliaAux 10 19 (9/10) 2 999996 (124659/10000) := by
        rw [step 999997 (13851/1000) (by norm_num) (by norm_num)]; norm_num
    _ = mliaAux 10 19 (9/10) 2 999995 (1121931/100000) := by
        rw [step 999996 (124659/10000) (by norm_num) (by norm_num)]; norm_num
    _ = mliaAux 10 19 (9/10) 2 999994 (10097379/1000000) := by
        rw [step 999995 (1121931/100000) (by norm_num) (by norm_num)]; norm_num
    _ = mliaAux 10 19 (9/10) 2 999993 (90876411/10000000) := by
        rw [step 999994 (10097379/1000000) (by norm_num) (by norm_num)]; norm_num
    _ = mliaAux 10 19 (9/10) 2 999992 (817887699/100000000) := by
        rw [step 999993 (90876411/10000000) (by norm_num) (by norm_num)]; norm_num
    _ = (817887699 / 100000000, true) := by
        rw [stop 999992 (817887699/100000000) (by norm_num) (by norm_num)]

/-- At `z1 = 10`, `target = 19`, `n = 2` the returned array is
`[10, 8.17887699]`. -/
theorem mlia_cex_list :
    make_log_increasing_array 10 19 2 (9/10) = [10, 817887699 / 100000000] := by
  unfold make_log_increasing_array
  rw [mlia_cex_eval]
  exact logspace10_two 10 (817887699 / 100000000) (by norm_num) (by norm_num)

/-- C5 counterexample: for the valid input `z1_layer = 10`,
`target_depth = 19 > z1_layer`, `n_layers = 2`, the convergence loop shrinks
the trial maximum below `z1_layer` and `make_log_increasing_array` returns
the strictly decreasing array `[10, 8.17887699]` — not strictly increasing
widths as claimed (its sum `18.17887699` does stay below the target). -/
theorem C5_strict_increase_cex :
    (0 < (10:ℝ)) ∧ ((10:ℝ) < 19) ∧ (2 ≤ 2) ∧
    make_log_increasing_array 10 19 2 (9/10) = [10, 817887699 / 100000000] ∧
    ¬ List.Chain' (· < ·) (make_log_increasing_array 10 19 2 (9/10)) := by
  refine ⟨by norm_num, by norm_num, le_rfl, mlia_cex_list, ?_⟩
  rw [mlia_cex_list]
  norm_num

/-! # Elevation border extension (claim C7) -/

theorem clampIdx_lt (pad n i : ℕ) (h : 2 * pad < n) : clampIdx pad n i < n := by
  unfold clampIdx
  split_ifs <;> omega

theorem clampIdx_idem (pad n i : ℕ) (h : 2 * pad < n) :
    clampIdx pad n (clampIdx pad n i) = clampIdx pad n i := by
  unfold clampIdx
  split_ifs <;> omega

/-- Full characterization of the border extension: every entry of the
(transposed) result is the input value at the clamped (nearest-interior)
position. -/
theorem interpolate_elevation_border_eval {β : Type} (pad rows cols : ℕ) (m : ℕ → ℕ → β)
    (hpad : 0 < pad) (hrows : 2 * pad < rows) (hcols : 2 * pad < cols)
    (i j : ℕ) (hi : i < cols) (hj : j < rows) :
    interpolate_elevation_border pad rows cols m i j =
      m (clampIdx pad rows j) (clampIdx pad cols i) := by
  simp only [interpolate_elevation_border, clampIdx]
  split_ifs <;> first | rfl | (congr 1 <;> omega) | (exfalso; omega)

/-- C7: for every elevation matrix and `pad > 0` (with both dimensions larger
than `2 * pad`), each entry of the array returned by `interpolate_elevation`
in its first and last `pad` rows and columns equals, exactly, the entry of
the returned array at the nearest interior row/column position — which is the
untouched interpolated value there. -/
theorem C7_elevation_border_extension {β : Type} (pad rows cols : ℕ) (m : ℕ → ℕ → β)
    (hpad : 0 < pad) (hrows : 2 * pad < rows) (hcols : 2 * pad < cols)
    (i j : ℕ) (hi : i < cols) (hj : j < rows) :
    interpolate_elevation_border pad rows cols m i j =
      interpolate_elevation_border pad rows cols m (clampIdx pad cols i) (clampIdx pad rows j) ∧
    interpolate_elevation_border pad rows cols m i j =
      m (clampIdx pad rows j) (clampIdx pad cols i) := by
  have key := interpolate_elevation_border_eval pad rows cols m hpad hrows hcols
  constructor
  · rw [key i j hi hj, key (clampIdx pad cols i) (clampIdx pad rows j)
      (clampIdx_lt pad cols i hcols) (clampIdx_lt pad rows j hrows),
      clampIdx_idem pad cols i hcols, clampIdx_idem pad rows j hrows]
  · exact key i j hi hj

/-- Witness for C7: a `3 × 3` matrix with `pad = 1` at the corner `(0, 0)`. -/
theorem C7_elevation_border_witness :
    interpolate_elevation_border 1 3 3 (fun i j => ((10 * i + j : ℕ) : ℚ)) 0 0 =
      interpolate_elevation_border 1 3 3 (fun i j => ((10 * i + j : ℕ) : ℚ))
        (clampIdx 1 3 0) (clampIdx 1 3 0) ∧
    interpolate_elevation_border 1 3 3 (fun i j => ((10 * i + j : ℕ) : ℚ)) 0 0 =
      (fun i j => ((10 * i + j : ℕ) : ℚ)) (clampIdx 1 3 0) (clampIdx 1 3 0) :=
  C7_elevation_border_extension 1 3 3 (fun i j => ((10 * i + j : ℕ) : ℚ))
    (by norm_num) (by norm_num) (by norm_num) 0 0 (by norm_num) (by norm_num)

/-! # Frame effect of the topography reclassification (claim C8) -/

theorem foldl_min_replicate (c : α) : ∀ (k : ℕ), List.foldl min c (List.replicate k c) = c := by
  intro k
  induction k with
  | zero => rfl
  | succ k ih => simpa [List.replicate_succ, min_self] using ih

theorem min?_replicate (n : ℕ) (c : α) (h : 0 < n) :
    (List.replicate n c).min? = some c := by
  cases n with
  | zero => omega
  | succ n =>
      rw [List.replicate_succ]
      simp [List.min?, foldl_min_replicate]

theorem flatten_replicate_replicate {β : Type} (J I : ℕ) (c : β) :
    (List.replicate J (List.replicate I c)).flatten = List.replicate (J * I) c := by
  induction J with
  | zero => simp
  | succ J ih =>
      rw [List.replicate_succ, List.flatten_cons, ih, Nat.succ_mul, Nat.add_comm,
        ← List.replicate_add]

/-- C8: calling `assign_resistivity_from_surfacedata('topography', 1e12,
where='above')` with a flat topography surface at elevation zero, on a grid
whose cell-centre depths are all strictly positive, leaves every entry of the
resistivity volume unchanged: the `above` band `(amin - 1, 0]` and the
seawater band `(0, 0]` both miss every positive cell-centre depth. -/
theorem C8_topography_above_noop (grid_z : List α)
    (surface_dict : String → Option (ℕ → ℕ → α)) (n_north n_east : ℕ)
    (res_model : ℕ → ℕ → ℕ → α)
    (htopo : surface_dict ("topography") = some (fun _ _ => 0))
    (hgcz : ∀ k, k < grid_z.length - 1 → 0 < (grid_z.getD k 0 + grid_z.getD (k + 1) 0) / 2)
    (hn : 0 < n_north) (he : 0 < n_east) :
    assign_resistivity_from_surfacedata grid_z surface_dict n_north n_east res_model
      ("topography") (10 ^ 12) ("above") = Except.ok res_model := by
  unfold assign_resistivity_from_surfacedata
  rw [htopo]
  simp only [bind, Except.bind, neg_zero]
  have hflat : (List.map (fun j => List.map (fun i => (0 : α)) (List.range n_east))
      (List.range n_north)).flatten = List.replicate (n_north * n_east) 0 := by
    simp only [List.map_const', List.length_range]
    exact flatten_replicate_replicate n_north n_east 0
  have hmin : npMin ((List.map (fun j => List.map (fun i => (0 : α)) (List.range n_east))
      (List.range n_north)).flatten) = Except.ok 0 := by
    rw [hflat]
    unfold npMin
    rw [min?_replicate _ _ (Nat.mul_pos hn he)]
  rw [hmin]
  simp only [if_true, true_and, not_true_eq_false, false_and, or_false]
  congr 1
  funext j i k
  by_cases hk : j < n_north ∧ i < n_east ∧ k < grid_z.length - 1
  · have hpos := hgcz k hk.2.2
    rw [if_pos hk, if_neg (by intro h2; linarith [h2.1]), if_neg (by intro h2; linarith [h2.1])]
  · rw [if_neg hk]

/-- Witness for C8: a two-line depth grid `[1, 3]` (single cell-centre depth
`2 > 0`), a `1 × 1` volume at `100 Ohm-m`, and a flat zero topography. -/
theorem C8_topography_above_noop_witness :
    assign_resistivity_from_surfacedata ([1, 3] : List ℚ)
      (fun s => if s = ("topography") then some (fun _ _ => 0) else none) 1 1
      (fun _ _ _ => 100) ("topography") (10 ^ 12) ("above") =
      Except.ok (fun _ _ _ => (100 : ℚ)) :=
  C8_topography_above_noop ([1, 3] : List ℚ)
    (fun s => if s = ("topography") then some (fun _ _ => 0) else none) 1 1
    (fun _ _ _ => 100) (by simp)
    (by
      intro k hk
      have hk0 : k = 0 := by simpa using hk
      subst hk0
      norm_num [List.getD])
    (by norm_num) (by norm_num)

/-! # The `get_padding_cells` formula and Scenario B (claim C6) -/

/-- Convenience eval for `npRound`: round down, phrased with the unit
`u = 10 ^ (-d)` of the rounded digit. -/
theorem npRound_eval_low' (x v : ℝ) (d : ℤ) (n : ℤ) (u : ℝ)
    (hu : (10 : ℝ) ^ (-d) = u) (hv : (n : ℝ) * u = v)
    (h1 : (n : ℝ) * u ≤ x) (h2 : x < (n : ℝ) * u + u / 2) : npRound x d = v := by
  have hud : u * (10 : ℝ) ^ d = 1 := by
    rw [← hu, ← zpow_add₀ (by norm_num : (10:ℝ) ≠ 0)]
    norm_num
  have hdp : (0 : ℝ) < (10 : ℝ) ^ d := zpow_pos (by norm_num) d
  apply npRound_eval_low x d n v
  · rw [← hv, mul_assoc, hud, mul_one]
  · have h3 := mul_le_mul_of_nonneg_right h1 hdp.le
    rw [mul_assoc, hud, mul_one] at h3
    exact h3
  · have h3 := mul_lt_mul_of_pos_right h2 hdp
    rw [add_mul, mul_assoc, hud, mul_one, div_mul_eq_mul_div, hud] at h3
    exact h3

/-- Convenience eval for `npRound`: round up, phrased with the unit
`u = 10 ^ (-d)` of the rounded digit. -/
theorem npRound_eval_high' (x v : ℝ) (d : ℤ) (n : ℤ) (u : ℝ)
    (hu : (10 : ℝ) ^ (-d) = u) (hv : ((n : ℝ) + 1) * u = v)
    (h1 : (n : ℝ) * u + u / 2 < x) (h2 : x < (n : ℝ) * u + u) : npRound x d = v := by
  have hud : u * (10 : ℝ) ^ d = 1 := by
    rw [← hu, ← zpow_add₀ (by norm_num : (10:ℝ) ≠ 0)]
    norm_num
  have hdp : (0 : ℝ) < (10 : ℝ) ^ d := zpow_pos (by norm_num) d
  apply npRound_eval_high x d n v
  · rw [← hv, add_mul, one_mul, add_mul, mul_assoc, hud, mul_one]
  · have h3 := mul_lt_mul_of_pos_right h1 hdp
    rw [add_mul, mul_assoc, hud, mul_one, div_mul_eq_mul_div, hud] at h3
    exact h3
  · have h3 := mul_lt_mul_of_pos_right h2 hdp
    rw [add_mul, mul_assoc, hud, mul_one] at h3
    exact h3

theorem get_padding_cells_formula (w D s : ℝ) (N : ℕ) (i : ℕ) (hi : i < N) :
    (get_padding_cells w D N s).getD i 0 =
      max (npRound ((w * s) * (paddingScaling w D N s) ^ i) (-2))
        (npRound ((w * s) * ((1 - s ^ (i + 1)) / (1 - s))) (-2)) := by
  unfold get_padding_cells
  rw [List.getD_eq_getElem _ _ (by simpa using hi), List.getElem_map, List.getElem_range]

theorem scenB_scaling : paddingScaling 500 50000 7 (6/5) = ((250 : ℝ)/3) ^ ((1:ℝ)/6) := by
  unfold paddingScaling
  norm_num

theorem scenB_k_pos : 0 < paddingScaling 500 50000 7 (6/5) := by
  rw [scenB_scaling]
  exact Real.rpow_pos_of_pos (by norm_num) _

theorem scenB_pow6 : (paddingScaling 500 50000 7 (6/5)) ^ (6:ℕ) = 250/3 := by
  rw [scenB_scaling, ← Real.rpow_natCast (((250:ℝ)/3) ^ ((1:ℝ)/6)) 6,
    ← Real.rpow_mul (by norm_num)]
  norm_num

theorem scenB_k_lo : (20898/10000 : ℝ) < paddingScaling 500 50000 7 (6/5) := by
  by_contra h
  push_neg at h
  have h6 : (paddingScaling 500 50000 7 (6/5)) ^ (6:ℕ) ≤ (20898/10000 : ℝ) ^ (6:ℕ) :=
    pow_le_pow_left₀ scenB_k_pos.le h 6
  rw [scenB_pow6] at h6
  norm_num at h6

theorem scenB_k_hi : paddingScaling 500 50000 7 (6/5) < (209/100 : ℝ) := by
  by_contra h
  push_neg at h
  have h6 : (209/100 : ℝ) ^ (6:ℕ) ≤ (paddingScaling 500 50000 7 (6/5)) ^ (6:ℕ) :=
    pow_le_pow_left₀ (by norm_num) h 6
  rw [scenB_pow6] at h6
  norm_num at h6

theorem scenB_kn_lo (n : ℕ) (hn : n ≠ 0) :
    (20898/10000 : ℝ) ^ n < (paddingScaling 500 50000 7 (6/5)) ^ n :=
  pow_lt_pow_left₀ scenB_k_lo (by norm_num) hn

theorem scenB_kn_hi (n : ℕ) (hn : n ≠ 0) :
    (paddingScaling 500 50000 7 (6/5)) ^ n < (209/100 : ℝ) ^ n :=
  pow_lt_pow_left₀ scenB_k_hi scenB_k_pos.le hn

/-- The seven entries of `get_padding_cells(500, 50000, 7, 1.2)`. -/
theorem scenB_entries :
    (get_padding_cells 500 50000 7 (6/5)).getD 0 0 = 600 ∧
    (get_padding_cells 500 50000 7 (6/5)).getD 1 0 = 1300 ∧
    (get_padding_cells 500 50000 7 (6/5)).getD 2 0 = 2600 ∧
    (get_padding_cells 500 50000 7 (6/5)).getD 3 0 = 5500 ∧
    (get_padding_cells 500 50000 7 (6/5)).getD 4 0 = 11400 ∧
    (get_padding_cells 500 50000 7 (6/5)).getD 5 0 = 23900 ∧
    (get_padding_cells 500 50000 7 (6/5)).getD 6 0 = 50000 := by
  have k1l := scenB_kn_lo 1 (by norm_num)
  have k1h := scenB_kn_hi 1 (by norm_num)
  have k2l := scenB_kn_lo 2 (by norm_num)
  have k2h := scenB_kn_hi 2 (by norm_num)
  have k3l := scenB_kn_lo 3 (by norm_num)
  have k3h := scenB_kn_hi 3 (by norm_num)
  have k4l := scenB_kn_lo 4 (by norm_num)
  have k4h := scenB_kn_hi 4 (by norm_num)
  have k5l := scenB_kn_lo 5 (by norm_num)
  have k5h := scenB_kn_hi 5 (by norm_num)
  norm_num at k1l k1h k2l k2h k3l k3h k4l k4h k5l k5h
  have eA0 : npRound ((500 * (6/5 : ℝ)) * paddingScaling 500 50000 7 (6/5) ^ 0) (-2) = 600 := by
    apply npRound_eval_low' _ _ _ 6 100 (by norm_num) (by norm_num) <;> norm_num
  have eA1 : npRound ((500 * (6/5 : ℝ)) * paddingScaling 500 50000 7 (6/5) ^ 1) (-2) = 1300 := by
    apply npRound_eval_high' _ _ _ 12 100 (by norm_num) (by norm_num) <;>
      (simp only [pow_one]; nlinarith [k1l, k1h])
  have eA2 : npRound ((500 * (6/5 : ℝ)) * paddingScaling 500 50000 7 (6/5) ^ 2) (-2) = 2600 := by
    apply npRound_eval_low' _ _ _ 26 100 (by norm_num) (by norm_num) <;> nlinarith [k2l, k2h]
  have eA3 : npRound ((500 * (6/5 : ℝ)) * paddingScaling 500 50000 7 (6/5) ^ 3) (-2) = 5500 := by
    apply npRound_eval_high' _ _ _ 54 100 (by norm_num) (by norm_num) <;> nlinarith [k3l, k3h]
  have eA4 : npRound ((500 * (6/5 : ℝ)) * paddingScaling 500 50000 7 (6/5) ^ 4) (-2) = 11400 := by
    apply npRound_eval_low' _ _ _ 114 100 (by norm_num) (by norm_num) <;> nlinarith [k4l, k4h]
  have eA5 : npRound ((500 * (6/5 : ℝ)) * paddingScaling 500 50000 7 (6/5) ^ 5) (-2) = 23900 := by
    apply npRound_eval_low' _ _ _ 239 100 (by norm_num) (by norm_num) <;> nlinarith [k5l, k5h]
  have eA6 : npRound ((500 * (6/5 : ℝ)) * paddingScaling 500 50000 7 (6/5) ^ 6) (-2) = 50000 := by
    rw [scenB_pow6]
    apply npRound_eval_low' _ _ _ 500 100 (by norm_num) (by norm_num) <;> norm_num
  have eB0 : npRound ((500 * (6/5 : ℝ)) * ((1 - (6/5 : ℝ) ^ (0 + 1)) / (1 - (6/5 : ℝ)))) (-2) = 600 := by
    apply npRound_eval_low' _ _ _ 6 100 (by norm_num) (by norm_num) <;> norm_num
  have eB1 : npRound ((500 * (6/5 : ℝ)) * ((1 - (6/5 : ℝ) ^ (1 + 1)) / (1 - (6/5 : ℝ)))) (-2) = 1300 := by
    apply npRound_eval_low' _ _ _ 13 100 (by norm_num) (by norm_num) <;> norm_num
  have eB2 : npRound ((500 * (6/5 : ℝ)) * ((1 - (6/5 : ℝ) ^ (2 + 1)) / (1 - (6/5 : ℝ)))) (-2) = 2200 := by
    apply npRound_eval_high' _ _ _ 21 100 (by norm_num) (by norm_num) <;> norm_num
  have eB3 : npRound ((500 * (6/5 : ℝ)) * ((1 - (6/5 : ℝ) ^ (3 + 1)) / (1 - (6/5 : ℝ)))) (-2) = 3200 := by
    apply npRound_eval_low' _ _ _ 32 100 (by norm_num) (by norm_num) <;> norm_num
  have eB4 : npRound ((500 * (6/5 : ℝ)) * ((1 - (6/5 : ℝ) ^ (4 + 1)) / (1 - (6/5 : ℝ)))) (-2) = 4500 := by
    apply npRound_eval_high' _ _ _ 44 100 (by norm_num) (by norm_num) <;> norm_num
  have eB5 : npRound ((500 * (6/5 : ℝ)) * ((1 - (6/5 : ℝ) ^ (5 + 1)) / (1 - (6/5 : ℝ)))) (-2) = 6000 := by
    apply npRound_eval_high' _ _ _ 59 100 (by norm_num) (by norm_num) <;> norm_num
  have eB6 : npRound ((500 * (6/5 : ℝ)) * ((1 - (6/5 : ℝ) ^ (6 + 1)) / (1 - (6/5 : ℝ)))) (-2) = 7700 := by
    apply npRound_eval_low' _ _ _ 77 100 (by norm_num) (by norm_num) <;> norm_num
  refine ⟨?_, ?_, ?_, ?_, ?_, ?_, ?_⟩ <;>
    rw [get_padding_cells_formula _ _ _ _ _ (by norm_num)]
  · rw [eA0, eB0]; norm_num
  · rw [eA1, eB1]; norm_num
  · rw [eA2, eB2]; norm_num
  · rw [eA3, eB3]; norm_num
  · rw [eA4, eB4]; norm_num
  · rw [eA5, eB5]; norm_num
  · rw [eA6, eB6]; norm_num

theorem scenB_chain : List.Chain' (· < ·) (get_padding_cells 500 50000 7 (6/5)) := by
  obtain ⟨h0, h1, h2, h3, h4, h5, h6⟩ := scenB_entries
  rw [List.chain'_iff_get]
  intro i hi
  have hlen : (get_padding_cells 500 50000 7 (6/5)).length = 7 :=
    get_padding_cells_length 500 50000 (6/5) 7
  rw [hlen] at hi
  simp only [List.get_eq_getElem]
  rw [← List.getD_eq_getElem (get_padding_cells 500 50000 7 (6/5)) 0 (by omega),
    ← List.getD_eq_getElem (get_padding_cells 500 50000 7 (6/5)) 0 (by omega)]
  interval_cases i
  · rw [h0, h1]; norm_num
  · rw [h1, h2]; norm_num
  · rw [h2, h3]; norm_num
  · rw [h3, h4]; norm_num
  · rw [h4, h5]; norm_num
  · rw [h5, h6]; norm_num

/-- C6: `get_padding_cells` returns at each index `i < N` the maximum of the
rounded exponential candidate `round(w*s*k^i, -2)` and the rounded
geometric-series candidate `round(w*s*(1-s^(i+1))/(1-s), -2)`, where
`k = (D/(w*s))^(1/(N-1))`; in particular `get_padding_cells(500, 50000, 7,
1.2)` returns the seven strictly increasing values
`[600, 1300, 2600, 5500, 11400, 23900, 50000]`, whose last value is at least
`500*1.2*(50000/(500*1.2))` rounded to the nearest hundred (`= 50000`). -/
theorem C6_padding_cells_formula :
    (∀ (w D s : ℝ) (N i : ℕ), i < N →
      (get_padding_cells w D N s).getD i 0 =
        max (npRound ((w * s) * (paddingScaling w D N s) ^ i) (-2))
          (npRound ((w * s) * ((1 - s ^ (i + 1)) / (1 - s))) (-2))) ∧
    (get_padding_cells 500 50000 7 (6/5)).length = 7 ∧
    List.Chain' (· < ·) (get_padding_cells 500 50000 7 (6/5)) ∧
    npRound (500 * (6/5) * (50000 / (500 * (6/5)))) (-2) ≤
      (get_padding_cells 500 50000 7 (6/5)).getD 6 0 := by
  refine ⟨fun w D s N i hi => get_padding_cells_formula w D s N i hi,
    get_padding_cells_length 500 50000 (6/5) 7, scenB_chain, ?_⟩
  rw [scenB_entries.2.2.2.2.2.2]
  have hval : npRound ((500 : ℝ) * (6/5) * (50000 / (500 * (6/5)))) (-2) = 50000 := by
    apply npRound_eval_low' _ _ _ 500 100 (by norm_num) (by norm_num) <;> norm_num
  rw [hval]


/-! # Collision avoidance (claim C1) -/

/-- C1 (amended): one pass of the collision-avoidance loop, for a station
strictly within `0.02 * cell_size` of a grid line but not exactly on it,
moves that line so that its distance to the station exceeds
`0.02 * cell_size`.  (Stations exactly on a grid line are left untouched.) -/
theorem C1_nudge_step_separates (cs : α) (grid : List α) (s : α) (i : ℕ)
    (hcs : 0 < cs)
    (hfind : grid.findIdx? (fun g => decide (|s - g| < (1 / 50) * cs)) = some i)
    (hne : s ≠ grid.getD i 0) :
    |s - grid.getD i 0| < (1 / 50) * cs ∧
    (1 / 50) * cs < |s - (nudgeStation cs grid s).getD i 0| := by
  obtain ⟨hlen, hidx⟩ := List.findIdx?_eq_some_iff_findIdx_eq.mp hfind
  have hb : List.findIdx (fun g => decide (|s - g| < (1 / 50) * cs)) grid < grid.length := by
    rw [hidx]
    exact hlen
  have hfi := List.findIdx_getElem (w := hb)
  have hfi2 : decide (|s - grid.getD
      (List.findIdx (fun g => decide (|s - g| < (1 / 50) * cs)) grid) 0| < (1 / 50) * cs)
      = true := by
    rw [List.getD_eq_getElem _ _ hb]
    exact hfi
  rw [hidx] at hfi2
  have hnear : |s - grid.getD i 0| < (1 / 50) * cs := by simpa using hfi2
  refine ⟨hnear, ?_⟩
  unfold nudgeStation
  rw [hfind]
  dsimp only
  rcases lt_trichotomy (s - grid.getD i 0) 0 with hlt2 | heq | hgt
  · rw [if_neg (by linarith), if_pos hlt2]
    have hset : (grid.set i (grid.getD i 0 + 1 / 50 * cs)).getD i 0 =
        grid.getD i 0 + 1 / 50 * cs := by
      rw [List.getD_eq_getElem _ _ (by simpa using hlen), List.getElem_set_self]
    rw [hset]
    rw [abs_of_neg (by linarith)] at hnear ⊢
    linarith
  · exact absurd (by linarith) hne
  · rw [if_pos hgt]
    have hset : (grid.set i (grid.getD i 0 - 1 / 50 * cs)).getD i 0 =
        grid.getD i 0 - 1 / 50 * cs := by
      rw [List.getD_eq_getElem _ _ (by simpa using hlen), List.getElem_set_self]
    rw [hset]
    rw [abs_of_pos (by linarith)] at hnear
    rw [abs_of_pos (by linarith)]
    linarith

/-- Witness for the C1 nudge-step theorem at `cs = 500`, `grid = [0, 600]`,
`s = 3`, `i = 0`. -/
theorem C1_nudge_step_witness :
    [(0:ℝ), 600].findIdx? (fun g => decide (|(3:ℝ) - g| < 1 / 50 * 500)) = some 0 ∧
    (0:ℝ) < 500 ∧ (3:ℝ) ≠ [(0:ℝ), 600].getD 0 0 ∧
    |(3:ℝ) - [(0:ℝ), 600].getD 0 0| < 1 / 50 * 500 ∧
    1 / 50 * (500:ℝ) < |(3:ℝ) - (nudgeStation 500 [(0:ℝ), 600] 3).getD 0 0| := by
  have hfind : [(0:ℝ), 600].findIdx? (fun g => decide (|(3:ℝ) - g| < 1 / 50 * 500)) = some 0 := by
    norm_num [List.findIdx?_cons]
  have h := C1_nudge_step_separates (α := ℝ) 500 [0, 600] 3 0 (by norm_num) hfind
    (by norm_num [List.getD])
  exact ⟨hfind, by norm_num, by norm_num [List.getD], h.1, h.2⟩

/-- Compositional evaluation of `horizAxisPad` from the values of its
intermediate computations. -/
theorem horizAxisPad_eval_ok (cs : α) (pad_num : ℕ)
    (pf : α → List α → Except String (List α)) (rel : List α)
    (mn mx lo hi add : α) (inner pad grid : List α) (imn imx : α)
    (hmn : npMin rel = Except.ok mn) (hmx : npMax rel = Except.ok mx)
    (hlo : npRound (mn - (pad_num : α) * (3 / 2) * cs) (-2) = lo)
    (hhi : npRound (mx + (pad_num : α) * (3 / 2) * cs) (-2) = hi)
    (hadd : pythonMod (hi - lo) cs / 2 = add)
    (hinner : npArange (lo + add - cs) (hi - add + 2 * cs) cs = inner)
    (hpf : pf hi inner = Except.ok pad)
    (himn : npMin inner = Except.ok imn)
    (himx : npMax inner = Except.ok imx)
    (hgrid : (pad.reverse.map (fun p => -1 * p + imn)) ++ inner ++
      (pad.map (fun p => p + imx)) = grid) :
    horizAxisPad cs pad_num pf rel = Except.ok (nudgeGrid cs grid rel) := by
  unfold horizAxisPad
  rw [hmn, hmx]
  simp only [bind, Except.bind]
  rw [hlo, hhi, hadd, hinner, hpf]
  simp only [bind, Except.bind]
  rw [himn, himx]
  simp only [bind, Except.bind]
  rw [hgrid]

theorem c1_hlo : npRound ((0:ℝ) - ((3:ℕ) : ℝ) * (3 / 2) * 500) (-2) = -2200 := by
  apply npRound_eval_tie_odd _ _ (-23) _ _ _ (by decide)
  · push_cast
    norm_num
  · push_cast
    norm_num

theorem c1_hhi : npRound ((0:ℝ) + ((3:ℕ) : ℝ) * (3 / 2) * 500) (-2) = 2200 := by
  apply npRound_eval_tie_even _ _ 22 _ _ _ (by decide)
  · push_cast
    norm_num
  · push_cast
    norm_num

theorem c1_hadd : pythonMod ((2200:ℝ) - -2200) 500 / 2 = 200 := by
  unfold pythonMod
  norm_num

theorem c1_hinner : npArange ((-2200:ℝ) + 200 - 500) (2200 - 200 + 2 * 500) 500 =
    [-2500, -2000, -1500, -1000, -500, 0, 500, 1000, 1500, 2000, 2500] := by
  unfold npArange
  norm_num
  rw [show ((11:ℤ).toNat) = 11 from rfl]
  norm_num [List.range_succ]

theorem c1_nodes_eval :
    (List.range 7).map (fun (i : ℕ) => npRound ((500:ℝ) * (6/5) ^ i) (-2)) =
      [500, 600, 700, 900, 1000, 1200, 1500] := by
  have e0 : npRound ((500:ℝ) * (6/5) ^ (0:ℕ)) (-2) = 500 :=
    npRound_eval_low _ _ 5 _ (by norm_num) (by norm_num) (by norm_num)
  have e1 : npRound ((500:ℝ) * (6/5) ^ (1:ℕ)) (-2) = 600 :=
    npRound_eval_low _ _ 6 _ (by norm_num) (by norm_num) (by norm_num)
  have e2 : npRound ((500:ℝ) * (6/5) ^ (2:ℕ)) (-2) = 700 :=
    npRound_eval_low _ _ 7 _ (by norm_num) (by norm_num) (by norm_num)
  have e3 : npRound ((500:ℝ) * (6/5) ^ (3:ℕ)) (-2) = 900 :=
    npRound_eval_high _ _ 8 _ (by norm_num) (by norm_num) (by norm_num)
  have e4 : npRound ((500:ℝ) * (6/5) ^ (4:ℕ)) (-2) = 1000 :=
    npRound_eval_low _ _ 10 _ (by norm_num) (by norm_num) (by norm_num)
  have e5 : npRound ((500:ℝ) * (6/5) ^ (5:ℕ)) (-2) = 1200 :=
    npRound_eval_low _ _ 12 _ (by norm_num) (by norm_num) (by norm_num)
  have e6 : npRound ((500:ℝ) * (6/5) ^ (6:ℕ)) (-2) = 1500 :=
    npRound_eval_high _ _ 14 _ (by norm_num) (by norm_num) (by norm_num)
  rw [show List.range 7 = [0, 1, 2, 3, 4, 5, 6] from rfl]
  simp only [List.map]
  rw [e0, e1, e2, e3, e4, e5, e6]

theorem c1_pad_eval : get_padding_from_stretch (500:ℝ) (6/5) 7 = c1Pad := by
  show (List.range 7).map (fun (i : ℕ) =>
    (((List.range 7).map (fun (j : ℕ) => npRound ((500:ℝ) * (6/5) ^ j) (-2))).take (i+1)).sum) = c1Pad
  rw [c1_nodes_eval]
  rw [show List.range 7 = [0, 1, 2, 3, 4, 5, 6] from rfl]
  simp only [List.map]
  norm_num [c1Pad]

theorem c1_himn : npMin c1Inner = Except.ok (-2500) := by
  norm_num [npMin, c1Inner, List.min?, List.foldl, min_def]

theorem c1_himx : npMax c1Inner = Except.ok 2500 := by
  norm_num [npMax, c1Inner, List.max?, List.foldl, max_def]

theorem c1_hpf :
    paddingOf PadMethod.stretch 500 100000 (6/5) 7 2200 c1Inner = Except.ok c1Pad := by
  show Except.ok (get_padding_from_stretch (500:ℝ) (6/5) 7) = Except.ok c1Pad
  rw [c1_pad_eval]

theorem c1_hgrid :
    (c1Pad.reverse.map (fun p => -1 * p + (-2500))) ++ c1Inner ++
      (c1Pad.map (fun p => p + 2500)) = c1Grid := by
  norm_num [c1Pad, c1Inner, c1Grid]

theorem npMin_isOk {l : List α} (h : l ≠ []) : ∃ x, npMin l = Except.ok x := by
  unfold npMin
  cases h' : l.min? with
  | none => exact absurd (List.min?_eq_none_iff.mp h') h
  | some x => exact ⟨x, rfl⟩

theorem npLast_isOk {l : List α} (h : l ≠ []) : ∃ x, npLast l = Except.ok x := by
  unfold npLast
  cases h' : l.getLast? with
  | none => exact absurd (List.getLast?_eq_none_iff.mp h') h
  | some x => exact ⟨x, rfl⟩

theorem npSecondLast_isOk {l : List α} (h : 2 ≤ l.length) :
    ∃ x, npSecondLast l = Except.ok x := by
  unfold npSecondLast
  cases hr : l.reverse with
  | nil =>
      have hl : l.length = 0 := by simpa using congrArg List.length hr
      omega
  | cons a t =>
      cases t with
      | nil =>
          have hl : l.length = 1 := by simpa using congrArg List.length hr
          omega
      | cons b t' => exact ⟨b, rfl⟩

theorem c1_findIdx :
    c1Grid.findIdx? (fun g => decide (|(0:ℝ) - g| < 1 / 50 * 500)) = some 12 := by
  norm_num [c1Grid, List.findIdx?_cons]

theorem c1_nudge_noop : nudgeGrid (500:ℝ) c1Grid [0] = c1Grid := by
  unfold nudgeGrid
  rw [show sortAsc ([0] : List ℝ) = [0] from rfl]
  show nudgeStation (500:ℝ) c1Grid 0 = c1Grid
  unfold nudgeStation
  rw [c1_findIdx]
  dsimp only
  rw [show (c1Grid.getD 12 0 : ℝ) = 0 from rfl]
  rw [if_neg (by norm_num), if_neg (by norm_num)]

theorem c1_axis :
    horizAxisPad (500:ℝ) 3 (paddingOf PadMethod.stretch 500 100000 (6/5) 7) [0] =
      Except.ok c1Grid := by
  have h := horizAxisPad_eval_ok (500:ℝ) 3 (paddingOf PadMethod.stretch 500 100000 (6/5) 7)
    [0] 0 0 (-2200) 2200 200 c1Inner c1Pad c1Grid (-2500) 2500
    rfl rfl c1_hlo c1_hhi c1_hadd c1_hinner c1_hpf c1_himn c1_himx c1_hgrid
  rw [h, c1_nudge_noop]

/-- C1 counterexample: for the default stretch-padding configuration and a
single station at the origin, `make_mesh` succeeds and returns an east grid
containing a grid line at distance `0 < 0.02 * cell_size_east` from the
station: a station lying exactly on a grid line is never nudged away, so the
claimed separation invariant fails. -/
theorem C1_station_on_grid_line_cex :
    ∃ r : MeshResult, makeMesh (some stationsOrigin) cfgStretch = Except.ok r ∧
      ∃ s ∈ stationsOrigin.rel_east, ∃ g ∈ r.grid_east,
        |s - g| < 1 / 50 * cfgStretch.cell_size_east := by
  unfold makeMesh
  dsimp only [cfgStretch, stationsOrigin]
  simp only [bind, Except.bind]
  rw [c1_axis]
  simp only [bind, Except.bind]
  obtain ⟨corr, hcorr⟩ := npSecondLast_isOk
    (l := logspace10 (Real.logb 10 10) (Real.logb 10 50000) 30)
    (by rw [logspace10_length]; norm_num)
  rw [hcorr]
  dsimp only
  obtain ⟨zl, hzl⟩ := npLast_isOk
    (l := (logspace10 (Real.logb 10 10) (Real.logb 10 (50000 - corr)) (30 - 4)).map
      (fun zz => npRound zz (1 - ⌊Real.logb 10 zz⌋)))
    (by
      intro hnil
      have hlen := congrArg List.length hnil
      rw [List.length_map, logspace10_length] at hlen
      simp at hlen)
  rw [hzl]
  dsimp only
  obtain ⟨gm, hgm⟩ := npMin_isOk (l := c1Grid) (by simp [c1Grid])
  rw [hgm]
  dsimp only
  refine ⟨_, rfl, 0, by norm_num, 0, ?_, by norm_num⟩
  norm_num [c1Grid]


/-! # Model file codec round-trip (claim C4) -/

/-- Half-ulp error of the five-digit scientific format on positive values. -/
theorem abs_fmtSci5Pos_sub_le (y : α) (hy : 0 < y) :
    |fmtSci5Pos y - y| ≤ 1 / 2 * (10 : α) ^ (-(5 : ℤ)) * y := by
  unfold fmtSci5Pos
  have hpe : (0 : α) < (10 : α) ^ Int.log 10 y := zpow_pos (by norm_num) _
  have h5 : (0 : α) < (10 : α) ^ (5 : ℕ) := by positivity
  have hkey := abs_roundHalfEven_sub_le (y / (10 : α) ^ Int.log 10 y * 10 ^ 5)
  have hrw : (roundHalfEven (y / (10 : α) ^ Int.log 10 y * 10 ^ 5) : α) / 10 ^ 5 *
        (10 : α) ^ Int.log 10 y - y =
      ((roundHalfEven (y / (10 : α) ^ Int.log 10 y * 10 ^ 5) : α) -
        y / (10 : α) ^ Int.log 10 y * 10 ^ 5) * ((10 : α) ^ Int.log 10 y / 10 ^ 5) := by
    field_simp
    ring
  rw [hrw, abs_mul,
    abs_of_pos (show (0 : α) < (10 : α) ^ Int.log 10 y / 10 ^ 5 by positivity)]
  have hle : ((10 : ℕ) : α) ^ Int.log 10 y ≤ y := Int.zpow_log_le_self (by norm_num) hy
  rw [show (((10 : ℕ) : α)) = (10 : α) by norm_num] at hle
  have h105 : (10 : α) ^ (-(5 : ℤ)) = ((10 : α) ^ (5 : ℕ))⁻¹ := by
    rw [zpow_neg]
    norm_num
  calc |(roundHalfEven (y / (10 : α) ^ Int.log 10 y * 10 ^ 5) : α) -
        y / (10 : α) ^ Int.log 10 y * 10 ^ 5| * ((10 : α) ^ Int.log 10 y / 10 ^ 5)
      ≤ 1 / 2 * ((10 : α) ^ Int.log 10 y / 10 ^ 5) := by
        exact mul_le_mul_of_nonneg_right hkey (by positivity)
    _ = 1 / 2 * ((10 : α) ^ (5 : ℕ))⁻¹ * (10 : α) ^ Int.log 10 y := by ring
    _ ≤ 1 / 2 * ((10 : α) ^ (5 : ℕ))⁻¹ * y := by
        exact mul_le_mul_of_nonneg_left hle (by positivity)
    _ = 1 / 2 * (10 : α) ^ (-(5 : ℤ)) * y := by rw [h105]

/-- Half-ulp relative error of the five-digit scientific format. -/
theorem abs_fmtSci5_sub_le (y : α) :
    |fmtSci5 y - y| ≤ 1 / 2 * (10 : α) ^ (-(5 : ℤ)) * |y| := by
  unfold fmtSci5
  split_ifs with h0 hneg
  · subst h0
    simp
  · have h := abs_fmtSci5Pos_sub_le (-y) (by linarith)
    have hre : -fmtSci5Pos (-y) - y = -(fmtSci5Pos (-y) - -y) := by ring
    rw [hre, abs_neg, abs_of_neg hneg]
    exact h
  · have hpos : 0 < y := lt_of_le_of_ne (not_lt.mp hneg) (Ne.symm h0)
    rw [abs_of_pos hpos]
    exact abs_fmtSci5Pos_sub_le y hpos

/-- Applying the declared scale after its inverse is the identity. -/
theorem scaleApply_scaleInvert (s : ResScale) (v : ℝ) :
    scaleApply s (scaleInvert s v) = v := by
  cases s
  · exact Real.log_exp v
  · exact Real.logb_rpow (by norm_num) (by norm_num)
  · rfl

/-- Mercator bounds on `log (5/4)` from the 13-term alternating series. -/
theorem log_five_quarters_bounds :
    (337272416153 : ℝ) / 1511459389440 - 4 / 805306368 ≤ Real.log (5 / 4) ∧
      Real.log (5 / 4) ≤ (337272416153 : ℝ) / 1511459389440 + 4 / 805306368 := by
  have h := Real.abs_log_sub_add_sum_range_le (x := -(1 / 4)) (by rw [abs_neg, abs_of_nonneg (by norm_num : (0:ℝ) ≤ 1 / 4)]; norm_num) 13
  have hsum : (∑ i ∈ Finset.range 13, (-(1 / 4) : ℝ) ^ (i + 1) / (i + 1)) =
      -(337272416153 / 1511459389440) := by
    norm_num [Finset.sum_range_succ]
  have hlog : Real.log (1 - -(1 / 4)) = Real.log (5 / 4) := by norm_num
  have hbnd : |(-(1 / 4) : ℝ)| ^ (13 + 1) / (1 - |(-(1 / 4) : ℝ)|) = 4 / 805306368 := by
    rw [abs_neg, abs_of_nonneg (by norm_num : (0:ℝ) ≤ 1 / 4)]
    norm_num
  rw [hsum, hlog, hbnd] at h
  rw [abs_le] at h
  constructor <;> linarith [h.1, h.2]

/-- Rational bounds on `log 10` via `10 = 2 ^ 3 * (5 / 4)`. -/
theorem log_ten_bounds :
    (2302585 : ℝ) / 1000000 < Real.log 10 ∧ Real.log 10 < (2302635 : ℝ) / 1000000 := by
  have h10 : (10 : ℝ) = 2 ^ 3 * (5 / 4) := by norm_num
  have hsplit : Real.log 10 = 3 * Real.log 2 + Real.log (5 / 4) := by
    rw [h10, Real.log_mul (by norm_num) (by norm_num), Real.log_pow]
    push_cast
    ring
  have h2lo := Real.log_two_gt_d9
  have h2hi := Real.log_two_lt_d9
  have h54 := log_five_quarters_bounds
  rw [hsplit]
  norm_num at h2lo h2hi ⊢
  constructor <;> nlinarith [h54.1, h54.2]

/-- Scenario D: `exp 4.60517` is within `1/100` of `100`. -/
theorem exp_46 : |Real.exp (460517 / 100000) - 100| < 1 / 100 := by
  obtain ⟨hlo, hhi⟩ := log_ten_bounds
  have hln100 : Real.log 100 = 2 * Real.log 10 := by
    rw [show (100 : ℝ) = 10 ^ 2 by norm_num, Real.log_pow]
    push_cast
    ring
  have hub : Real.exp (460517 / 100000) < 100 := by
    have h1 : (460517 : ℝ) / 100000 < Real.log 100 := by rw [hln100]; linarith
    calc Real.exp (460517 / 100000) < Real.exp (Real.log 100) :=
          Real.exp_lt_exp.mpr h1
      _ = 100 := Real.exp_log (by norm_num)
  have hlb : (9999 : ℝ) / 100 < Real.exp (460517 / 100000) := by
    have key := Real.add_one_le_exp ((460517 : ℝ) / 100000 - Real.log 100)
    have hexp : Real.exp ((460517 : ℝ) / 100000 - Real.log 100) * 100 =
        Real.exp (460517 / 100000) := by
      rw [Real.exp_sub, Real.exp_log (show (0:ℝ) < 100 by norm_num)]
      field_simp
    have h2 : Real.log 100 - (460517 : ℝ) / 100000 < 1 / 10000 := by
      rw [hln100]; linarith
    nlinarith [Real.exp_pos ((460517 : ℝ) / 100000 - Real.log 100)]
  rw [abs_lt]
  constructor <;> linarith

/-- Reading back a written node line reproduces a positive width to within
half of the last (third) fraction digit. -/
theorem nodes_roundtrip_getD (l : List α) (hpos : ∀ x ∈ l, 0 < x) (i : ℕ)
    (hi : i < l.length) :
    |(l.map (fun x => fmtFixed3 |x|)).getD i 0 - l.getD i 0| ≤ 1 / 2000 := by
  have hmem : l.getD i 0 ∈ l := by
    rw [List.getD_eq_getElem _ _ hi]
    exact List.getElem_mem _
  have hx := hpos _ hmem
  have hmap : (l.map (fun x => fmtFixed3 |x|)).getD i 0 = fmtFixed3 |l.getD i 0| := by
    rw [List.getD_eq_getElem _ _ (by simpa using hi), List.getElem_map,
      List.getD_eq_getElem _ _ hi]
  rw [hmap, abs_of_pos hx]
  calc |fmtFixed3 (l.getD i 0) - l.getD i 0| ≤ 1 / 2 * (10 : α) ^ (-(3 : ℤ)) :=
        abs_npRound_sub_le (l.getD i 0) 3
    _ = 1 / 2000 := by
        rw [zpow_neg]
        norm_num

/-- C4: for every model with positive node widths, reading back a written
model file reproduces each node width to within `1/2000` (half of the third
fraction digit of the `{0:>12.3f}` format); in the scaled domain the
resistivity round-trip is exactly the five-fraction-digit scientific value,
whose relative error is at most half a unit in the fifth fraction digit of
the mantissa; and a `SCALE = LOGE` file holding `4.60517` reads back within
`1/100` of `100` Ohm-m. -/
theorem C4_model_file_roundtrip (m : ModelData)
    (hn : ∀ x ∈ m.nodes_north, 0 < x) (he : ∀ x ∈ m.nodes_east, 0 < x)
    (hz : ∀ x ∈ m.nodes_z, 0 < x) :
    (∀ i, i < m.nodes_north.length →
      |(read_model_file (write_model_file m)).nodes_north.getD i 0 -
        m.nodes_north.getD i 0| ≤ 1 / 2000) ∧
    (∀ i, i < m.nodes_east.length →
      |(read_model_file (write_model_file m)).nodes_east.getD i 0 -
        m.nodes_east.getD i 0| ≤ 1 / 2000) ∧
    (∀ i, i < m.nodes_z.length →
      |(read_model_file (write_model_file m)).nodes_z.getD i 0 -
        m.nodes_z.getD i 0| ≤ 1 / 2000) ∧
    (∀ n e z, n < m.nodes_north.length →
      scaleApply m.res_scale ((read_model_file (write_model_file m)).res_model n e z) =
        fmtSci5 (scaleApply m.res_scale (m.res_model n e z))) ∧
    (∀ y : ℝ, |fmtSci5 y - y| ≤ 1 / 2 * (10 : ℝ) ^ (-(5 : ℤ)) * |y|) ∧
    |scaleInvert ResScale.loge (460517 / 100000) - 100| < 1 / 100 := by
  refine ⟨?_, ?_, ?_, ?_, fun y => abs_fmtSci5_sub_le y, exp_46⟩
  · intro i hi
    dsimp only [read_model_file, write_model_file]
    exact nodes_roundtrip_getD m.nodes_north hn i hi
  · intro i hi
    dsimp only [read_model_file, write_model_file]
    exact nodes_roundtrip_getD m.nodes_east he i hi
  · intro i hi
    dsimp only [read_model_file, write_model_file]
    exact nodes_roundtrip_getD m.nodes_z hz i hi
  · intro n e z hn2
    dsimp only [read_model_file, write_model_file]
    rw [show m.nodes_north.length - 1 - (m.nodes_north.length - 1 - n) = n by omega]
    rw [scaleApply_scaleInvert]

/-- Witness for C4 at the one-cell linear-scale model `mW`. -/
theorem C4_model_file_roundtrip_witness :
    (∀ x ∈ mW.nodes_north, 0 < x) ∧ (∀ x ∈ mW.nodes_east, 0 < x) ∧
    (∀ x ∈ mW.nodes_z, 0 < x) ∧
    |scaleInvert ResScale.loge (460517 / 100000) - 100| < 1 / 100 ∧
    |(read_model_file (write_model_file mW)).nodes_north.getD 0 0 -
      mW.nodes_north.getD 0 0| ≤ 1 / 2000 := by
  have h1 : ∀ x ∈ mW.nodes_north, 0 < x := by
    intro x hx
    simp only [mW, List.mem_singleton] at hx
    rw [hx]
    norm_num
  have h2 : ∀ x ∈ mW.nodes_east, 0 < x := by
    intro x hx
    simp only [mW, List.mem_singleton] at hx
    rw [hx]
    norm_num
  have h3 : ∀ x ∈ mW.nodes_z, 0 < x := by
    intro x hx
    simp only [mW, List.mem_singleton] at hx
    rw [hx]
    norm_num
  obtain ⟨c1, c2, c3, c4, c5, c6⟩ := C4_model_file_roundtrip mW h1 h2 h3
  exact ⟨h1, h2, h3, c6, c1 0 (by simp [mW])⟩

end Mtpy
